import Mathlib

/-!
# Instance management handlers of GoTrue (`api/instance.go`)

A shallow embedding of the handlers `loadInstance`, `GetAppManifest`,
`CreateInstance`, `GetInstance`, `UpdateInstance` and `DeleteInstance`.

* Pointers that may be nil are `Option`; a Go map that may be nil is an
  `Option` of an association list whose order is the order in which `range`
  visits the entries.
* The persistence layer `a.db` is a record of operations over an abstract
  store type; every result below holds for every such record.
* `conf.Configuration` and `mergo.MergeWithOverwrite` are not part of
  `api/instance.go`; they are modelled from the specification (sections 3
  and 4.2).
-/

namespace GoTrue

-- Results of fallible calls can be compared.
deriving instance DecidableEq for Except

/-! ## Configuration values -/

mutual
/-- Modelled from the spec: the type `conf.Configuration` (package `conf` is
imported by `api/instance.go` but its declaration is not at hand). Section 3:
"a structured configuration value (nested mapping of typed fields — scalars,
nested objects, slices)". Sequences are atomic leaves (section 4.2). -/
inductive Config where
  | str (s : String)
  | num (n : Int)
  | bool (b : Bool)
  | seq (xs : List String)
  | obj (fs : Fields)
  deriving DecidableEq
/-- Modelled from the spec: the fields of a nested object, a mapping from field
name to value; a field that is not listed is unset. -/
inductive Fields where
  | nil
  | cons (name : String) (value : Config) (rest : Fields)
  deriving DecidableEq
end

/-- Value of the field called `k`, if it is set. -/
def Fields.lookup (k : String) : Fields → Option Config
  | .nil => none
  | .cons n v rest => if n = k then some v else Fields.lookup k rest

/-- Concatenation of two field lists. -/
def Fields.append : Fields → Fields → Fields
  | .nil, ys => ys
  | .cons n v rest, ys => .cons n v (Fields.append rest ys)

/-- Fields of the second list whose name is not set in `dst`. -/
def Fields.without (dst : Fields) : Fields → Fields
  | .nil => .nil
  | .cons n v rest =>
    match dst.lookup n with
    | some _ => Fields.without dst rest
    | none => .cons n v (Fields.without dst rest)

/-- Every name of the second list is set in `dst`. -/
def Fields.covers (dst : Fields) : Fields → Bool
  | .nil => true
  | .cons n _ rest => (dst.lookup n).isSome && Fields.covers dst rest

/-- Value found by following a path of field names. -/
def Config.get : Config → List String → Option Config
  | c, [] => some c
  | .obj fs, n :: rest =>
    match fs.lookup n with
    | some v => Config.get v rest
    | none => none
  | _, _ :: _ => none

/-- Leaves are the scalars and the sequences. -/
def Config.isLeaf : Config → Bool
  | .obj _ => false
  | _ => true

mutual
/-- Zero value: the empty string, 0, false, the empty sequence, and an object
all of whose fields are zero. -/
def Config.isZero : Config → Bool
  | .str s => decide (s = "")
  | .num n => decide (n = 0)
  | .bool b => decide (b = false)
  | .seq xs => decide (xs = [])
  | .obj fs => Fields.allZero fs
/-- Every listed field is zero. -/
def Fields.allZero : Fields → Bool
  | .nil => true
  | .cons _ v rest => Config.isZero v && Fields.allZero rest
end

/-- A leaf of `src` at path `p` that is not zero: a field the update touches. -/
def Config.touches (src : Config) (p : List String) : Prop :=
  ∃ v, src.get p = some v ∧ v.isLeaf = true ∧ v.isZero = false

mutual
/-- The value `src` is an update of the schema of `dst`: where both set a
field the kinds agree, recursively, and `src` sets no field that `dst` lacks. -/
def conforms : (src dst : Config) → Bool
  | .str _, .str _ => true
  | .num _, .num _ => true
  | .bool _, .bool _ => true
  | .seq _, .seq _ => true
  | .obj fs, .obj fd => conformsFields fs fd && Fields.covers fd fs
  | _, _ => false
/-- Field by field over the destination: a field that `fs` sets conforms. -/
def conformsFields : (fs fd : Fields) → Bool
  | _, .nil => true
  | fs, .cons n d rest =>
    (match fs.lookup n with
      | none => true
      | some v => conforms v d) && conformsFields fs rest
end

/-- Two values are of one kind: two strings, two numbers, two booleans, two
sequences, or two objects. -/
def Config.sameKind : Config → Config → Bool
  | .str _, .str _ => true
  | .num _, .num _ => true
  | .bool _, .bool _ => true
  | .seq _, .seq _ => true
  | .obj _, .obj _ => true
  | _, _ => false

/-- A value seen without its fields: a leaf as it is, an object as the bare
object. -/
def Config.peek : Config → Config
  | .obj _ => .obj .nil
  | c => c

/-- Two configurations are the same nested mapping: at every path both hold
nothing, or both hold an object, or both hold the same leaf. The order in
which an object lists its fields does not count. -/
def Config.sameMapping (a b : Config) : Prop :=
  ∀ p, (a.get p).map Config.peek = (b.get p).map Config.peek

mutual
/-- The value `x` is a value of the schema that `schema` spells out: every field
that `x` sets is a field of `schema` of the same kind, recursively. A value
need not set every field. -/
def fits : (x schema : Config) → Bool
  | .str _, .str _ => true
  | .num _, .num _ => true
  | .bool _, .bool _ => true
  | .seq _, .seq _ => true
  | .obj fs, .obj sch => fitsFields fs sch
  | _, _ => false
/-- Field by field over the value: each field is a field of the schema. -/
def fitsFields : (fs sch : Fields) → Bool
  | .nil, _ => true
  | .cons n v rest, sch =>
    (match sch.lookup n with
      | none => false
      | some f => fits v f) && fitsFields rest sch
end

/-- The value at one path after a merge, from what `dst` and `src` hold at that
path (objects seen without their fields): unset in `src` keeps `dst`, a leaf
that is not zero replaces, a zero leaf keeps what `dst` holds and stands
where `dst` holds nothing, an object gives an object. -/
def overlay (d s : Option Config) : Option Config :=
  match s with
  | none => d
  | some v =>
    if v.isLeaf then
      if v.isZero then
        (match d with
          | some x => some x
          | none => some v)
      else some v
    else some (.obj .nil)

/-! ## The merge engine -/

/-- Modelled from the spec: the error of the merge engine (section 4.2,
"the merge fails with `MergeError` if `src` and `dst` have incompatible shapes
at some field"); a nil destination leaves nothing to merge into. -/
inductive MergeError where
  | shapeMismatch
  | nilDestination
  deriving DecidableEq

mutual
/-- Modelled from the spec: the merge engine behind `mergo.MergeWithOverwrite`
(package `mergo` is imported, its code is not at hand). Section 4.2: a leaf
that is non-zero in `src` overwrites; a zero or unset field of `src` keeps the
value of `dst`; nested objects are merged field by field, and an object that
`dst` lacks is adopted from `src`; a non-empty sequence replaces, an empty one
keeps; incompatible shapes fail. -/
def merge : (dst src : Config) → Except MergeError Config
  | .str d, .str s => .ok (.str (if s = "" then d else s))
  | .num d, .num s => .ok (.num (if s = 0 then d else s))
  | .bool d, .bool s => .ok (.bool (if s = false then d else s))
  | .seq d, .seq s => .ok (.seq (if s = [] then d else s))
  | .obj fd, .obj fs =>
    match mergeFields fd fs with
    | .ok m => .ok (.obj (m.append (Fields.without fd fs)))
    | .error e => .error e
  | _, _ => .error .shapeMismatch
/-- Modelled from the spec: the fields of `dst` in turn, each merged with the
field of the same name in `src` when `src` sets it. -/
def mergeFields : (fd fs : Fields) → Except MergeError Fields
  | .nil, _ => .ok .nil
  | .cons n d rest, fs =>
    match fs.lookup n with
    | none =>
      match mergeFields rest fs with
      | .ok r => .ok (.cons n d r)
      | .error e => .error e
    | some v =>
      match merge d v with
      | .error e => .error e
      | .ok m =>
        match mergeFields rest fs with
        | .ok r => .ok (.cons n m r)
        | .error e => .error e
end

/-- Modelled from the spec: the call `mergo.MergeWithOverwrite(dst, src)` on two
pointers. The destination pointer is passed by value, so a nil destination
cannot be given a value; the call reports an error. -/
def MergeWithOverwrite (dst : Option Config) (src : Config) : Except MergeError Config :=
  match dst with
  | none => .error .nilDestination
  | some d => merge d src

/-! ## Go maps from context name to configuration -/

/-- A value of type `map[string]conf.Configuration`: `none` is the nil map,
`some l` a map holding the entries of `l` (keys distinct). -/
abbrev ContextMap := Option (List (String × Config))

/-- Entry stored under `k` in an entry list. -/
def entryLookup (k : String) : List (String × Config) → Option Config
  | [] => none
  | (n, v) :: rest => if n = k then some v else entryLookup k rest

/-- Entry list after storing `v` under `k`: the entry is replaced where the key
is present and added otherwise. -/
def entryStore (k : String) (v : Config) : List (String × Config) → List (String × Config)
  | [] => [(k, v)]
  | (n, c) :: rest => if n = k then (n, v) :: rest else (n, c) :: entryStore k v rest

/-- The read `c, ok := m[k]`; reading a nil map finds nothing. -/
def mapIndex (m : ContextMap) (k : String) : Option Config :=
  match m with
  | none => none
  | some l => entryLookup k l

/-- The write `m[k] = v`; `none` is the run-time fault "assignment to entry in
nil map". -/
def mapAssign (m : ContextMap) (k : String) (v : Config) : Option ContextMap :=
  match m with
  | none => none
  | some l => some (some (entryStore k v l))

/-- Keys of a map; the nil map has none. -/
def mapKeys (m : ContextMap) : List String :=
  match m with
  | none => []
  | some l => l.map Prod.fst

/-! ## Records, requests and responses -/

/-- The record `models.Instance`, with the fields that `CreateInstance` fills. -/
structure Instance where
  ID : String
  UUID : String
  BaseConfig : Option Config
  Contexts : ContextMap
  deriving DecidableEq

/-- The struct `InstanceRequestParams`. -/
structure InstanceRequestParams where
  UUID : String
  BaseConfig : Option Config
  Contexts : ContextMap
  deriving DecidableEq

/-- The struct `InstanceResponse`: the instance with two computed fields. -/
structure InstanceResponse where
  Instance : Instance
  Endpoint : String
  State : String
  deriving DecidableEq

/-- Errors of the persistence layer; `notFound` is the kind that
`models.IsNotFoundError` recognises. -/
inductive DBError where
  | notFound
  | other (msg : String)
  deriving DecidableEq

/-- The test `models.IsNotFoundError(err)`. -/
def IsNotFoundError : DBError → Bool
  | .notFound => true
  | .other _ => false

/-- The persistence layer `a.db` over a store of type `σ`. A write returns the
error, if any, and the store it leaves behind. -/
structure Conn (σ : Type) where
  GetInstance : σ → String → Except DBError Instance
  GetInstanceByUUID : σ → String → Except DBError Instance
  CreateInstance : σ → Instance → Option DBError × σ
  UpdateInstance : σ → Instance → Option DBError × σ
  DeleteInstance : σ → Instance → Option DBError × σ

/-- The receiver `a *API`: the persistence layer, `a.config.API.Endpoint` and
`a.version`. -/
structure API (σ : Type) where
  db : Conn σ
  endpoint : String
  version : String

/-- The error attached by `WithInternalError`. -/
inductive Cause where
  | merge (e : MergeError)
  | db (e : DBError)
  deriving DecidableEq

/-- Errors built by `badRequestError`, `notFoundError` and
`internalServerError(..).WithInternalError(..)`. -/
inductive HTTPError where
  | badRequest (msg : String)
  | notFound (msg : String)
  | internalServerError (msg : String) (internal : Cause)
  deriving DecidableEq

/-- Value handed to `sendJSON`, or no body at all. -/
inductive Body where
  | manifest (version name description : String)
  | instanceResponse (resp : InstanceResponse)
  | inst (i : Instance)
  | empty
  deriving DecidableEq

/-- How a handler ends: a response was written, an error was returned, or the
run time stopped the handler. -/
inductive Outcome where
  | sent (status : Nat) (body : Body)
  | failed (err : HTTPError)
  | fault (msg : String)
  deriving DecidableEq

/-- The handler wrote a response. -/
def Outcome.succeeded : Outcome → Bool
  | .sent _ _ => true
  | _ => false

/-- The handler stopped before it called the persistence layer: the body did
not decode, a merge failed, or the run time stopped it. -/
def Outcome.stoppedEarly : Outcome → Bool
  | .failed (.badRequest _) => true
  | .failed (.internalServerError _ (.merge _)) => true
  | .fault _ => true
  | _ => false

/-- Outcome of a handler and the store afterwards. -/
structure Result (σ : Type) where
  outcome : Outcome
  db : σ

/-- Outcome of `UpdateInstance`, the record `i` points to afterwards, and the
store afterwards. -/
structure UpdateResult (σ : Type) where
  outcome : Outcome
  inst : Instance
  db : σ

/-- The constant `http.StatusOK`. -/
def StatusOK : Nat := 200

/-- The constant `http.StatusCreated`. -/
def StatusCreated : Nat := 201

/-- The constant `http.StatusNoContent`. -/
def StatusNoContent : Nat := 204

/-! ## The handlers -/

/-- The function `loadInstance`: the instance named by the URL parameter. -/
def loadInstance {σ : Type} (a : API σ) (s : σ) (instanceID : String) : Except HTTPError Instance :=
  match a.db.GetInstance s instanceID with
  | .error err =>
    if IsNotFoundError err then .error (.notFound "Instance not found")
    else .error (.internalServerError "Database error loading instance" (.db err))
  | .ok i => .ok i

/-- The handler `GetAppManifest`. -/
def GetAppManifest {σ : Type} (a : API σ) (s : σ) : Result σ :=
  ⟨.sent StatusOK (.manifest a.version "GoTrue"
    "GoTrue is a user registration and authentication API"), s⟩

/-- The handler `CreateInstance`; `body` is what decoding the request body
gives, `newID` the string of `uuid.NewRandom()`. -/
def CreateInstance {σ : Type} (a : API σ) (s : σ) (body : Except String InstanceRequestParams)
    (newID : String) : Result σ :=
  match body with
  | .error err => ⟨.failed (.badRequest ("Error decoding params: " ++ err)), s⟩
  | .ok params =>
    match a.db.GetInstanceByUUID s params.UUID with
    | .ok _ => ⟨.failed (.badRequest "An instance with that UUID already exists"), s⟩
    | .error err =>
      if !IsNotFoundError err then
        ⟨.failed (.internalServerError "Database error looking up instance" (.db err)), s⟩
      else
        let i : Instance :=
          { ID := newID, UUID := params.UUID, BaseConfig := params.BaseConfig,
            Contexts := params.Contexts }
        match a.db.CreateInstance s i with
        | (some e, s1) =>
          ⟨.failed (.internalServerError "Database error creating instance" (.db e)), s1⟩
        | (none, s1) =>
          ⟨.sent StatusCreated
            (.instanceResponse { Instance := i, Endpoint := a.endpoint, State := "active" }), s1⟩

/-- The handler `GetInstance`; `i` is the instance that `loadInstance` put in
the request context. -/
def GetInstance {σ : Type} (_a : API σ) (s : σ) (i : Instance) : Result σ :=
  ⟨.sent StatusOK (.inst i), s⟩

/-- How the loop over `params.Contexts` ends. -/
inductive LoopExit where
  | done
  | mergeFailed (e : MergeError)
  | nilMapAssign
  deriving DecidableEq

/-- The loop `for k, v := range params.Contexts` of `UpdateInstance` (lines
104 to 113), run on the map `i.Contexts`: the map it leaves and how it ended.
The list gives the entries in the order in which `range` visits them. -/
def reconcileContexts (ctxs : ContextMap) : List (String × Config) → ContextMap × LoopExit
  | [] => (ctxs, .done)
  | (k, v) :: rest =>
    match mapIndex ctxs k with
    | some c =>
      match MergeWithOverwrite (some c) v with
      | .error e => (ctxs, .mergeFailed e)
      | .ok m =>
        match mapAssign ctxs k m with
        | none => (ctxs, .nilMapAssign)
        | some next => reconcileContexts next rest
    | none =>
      match mapAssign ctxs k v with
      | none => (ctxs, .nilMapAssign)
      | some next => reconcileContexts next rest

/-- The tail of `UpdateInstance` (lines 116 to 119): the call
`a.db.UpdateInstance(i)` and the response. -/
def persistUpdate {σ : Type} (a : API σ) (s : σ) (i : Instance) : UpdateResult σ :=
  match a.db.UpdateInstance s i with
  | (some e, s1) =>
    ⟨.failed (.internalServerError "Database error updating instance" (.db e)), i, s1⟩
  | (none, s1) => ⟨.sent StatusOK (.inst i), i, s1⟩

/-- The part of `UpdateInstance` after the base configuration was merged (lines
103 to 119): the loop when `params.Contexts` is not nil, then the tail. -/
def updateContexts {σ : Type} (a : API σ) (s : σ) (i : Instance)
    (params : InstanceRequestParams) : UpdateResult σ :=
  match params.Contexts with
  | none => persistUpdate a s i
  | some entries =>
    match reconcileContexts i.Contexts entries with
    | (ctxs, .done) => persistUpdate a s { i with Contexts := ctxs }
    | (ctxs, .mergeFailed e) =>
      ⟨.failed (.internalServerError "Error merging instance configurations" (.merge e)),
        { i with Contexts := ctxs }, s⟩
    | (ctxs, .nilMapAssign) =>
      ⟨.fault "assignment to entry in nil map", { i with Contexts := ctxs }, s⟩

/-- The handler `UpdateInstance` (lines 89 to 120); `i` is the instance that
`loadInstance` put in the request context, `body` what decoding the request
body gives. The record `i` points to is changed in place; `inst` is its value
when the handler ends, a merge that fails being taken to leave its destination
as it was. -/
def UpdateInstance {σ : Type} (a : API σ) (s : σ) (i : Instance)
    (body : Except String InstanceRequestParams) : UpdateResult σ :=
  match body with
  | .error err => ⟨.failed (.badRequest ("Error decoding params: " ++ err)), i, s⟩
  | .ok params =>
    match params.BaseConfig with
    | none => updateContexts a s i params
    | some src =>
      match MergeWithOverwrite i.BaseConfig src with
      | .error e =>
        ⟨.failed (.internalServerError "Error merging instance configurations" (.merge e)), i, s⟩
      | .ok m => updateContexts a s { i with BaseConfig := some m } params

/-- The handler `DeleteInstance`. -/
def DeleteInstance {σ : Type} (a : API σ) (s : σ) (i : Instance) : Result σ :=
  match a.db.DeleteInstance s i with
  | (some e, s1) =>
    ⟨.failed (.internalServerError "Database error deleting instance" (.db e)), s1⟩
  | (none, s1) => ⟨.sent StatusNoContent .empty, s1⟩

/-! ## Persistence layers used to observe the handlers -/

/-- A write call received by the persistence layer. -/
inductive Call where
  | create (i : Instance)
  | update (i : Instance)
  | delete (i : Instance)
  deriving DecidableEq

/-- The persistence layer `c` with a log: every write call is passed on to `c`
and appended to the log, reads are passed on unchanged. -/
def recording {σ : Type} (c : Conn σ) : Conn (σ × List Call) where
  GetInstance s id := c.GetInstance s.1 id
  GetInstanceByUUID s u := c.GetInstanceByUUID s.1 u
  CreateInstance s i := ((c.CreateInstance s.1 i).1, ((c.CreateInstance s.1 i).2, s.2 ++ [.create i]))
  UpdateInstance s i := ((c.UpdateInstance s.1 i).1, ((c.UpdateInstance s.1 i).2, s.2 ++ [.update i]))
  DeleteInstance s i := ((c.DeleteInstance s.1 i).1, ((c.DeleteInstance s.1 i).2, s.2 ++ [.delete i]))

/-- The API `a` run on the logging persistence layer. -/
def API.recording {σ : Type} (a : API σ) : API (σ × List Call) :=
  { db := GoTrue.recording a.db, endpoint := a.endpoint, version := a.version }

/-- Modelled from the spec: the persistence collaborator of section 6 (its code
is not at hand), kept in memory as the list of stored records: `getByID`,
`getByUUID`, `create`, `update` and `delete`, none of which fails for a reason
other than a missing record. -/
def memConn : Conn (List Instance) where
  GetInstance s id :=
    match s.find? (fun r => decide (r.ID = id)) with
    | some r => .ok r
    | none => .error .notFound
  GetInstanceByUUID s u :=
    match s.find? (fun r => decide (r.UUID = u)) with
    | some r => .ok r
    | none => .error .notFound
  CreateInstance s i := (none, s ++ [i])
  UpdateInstance s i := (none, s.map (fun r => if r.ID = i.ID then i else r))
  DeleteInstance s i := (none, s.filter (fun r => !decide (r.ID = i.ID)))

/-- A persistence layer that is out of order: every call reports a storage
error and leaves the store as it is. -/
def downConn : Conn Unit where
  GetInstance _ _ := .error (.other "storage unavailable")
  GetInstanceByUUID _ _ := .error (.other "storage unavailable")
  CreateInstance s _ := (some (.other "storage unavailable"), s)
  UpdateInstance s _ := (some (.other "storage unavailable"), s)
  DeleteInstance s _ := (some (.other "storage unavailable"), s)

/-- An API over the in-memory persistence layer. -/
def memAPI : API (List Instance) :=
  { db := memConn, endpoint := "https://gotrue.example", version := "1" }

/-- An API over the persistence layer that is out of order. -/
def downAPI : API Unit :=
  { db := downConn, endpoint := "https://gotrue.example", version := "1" }

/-! ## Sample values (the scenarios of section 8 of the specification) -/

/-- Field list from a list of pairs. -/
def Fields.ofList : List (String × Config) → Fields
  | [] => .nil
  | (n, v) :: rest => .cons n v (Fields.ofList rest)

/-- The configuration `{siteURL: "https://a.example", mailer: {from: "a@x.com"}}`. -/
def sampleBase : Config :=
  .obj (.ofList [("siteURL", .str "https://a.example"),
    ("mailer", .obj (.ofList [("from", .str "a@x.com")]))])

/-- The update `{mailer: {from: "b@x.com"}}`. -/
def samplePatch : Config :=
  .obj (.ofList [("mailer", .obj (.ofList [("from", .str "b@x.com")]))])

/-- The configuration `{siteURL: "https://a.example", mailer: {from: "b@x.com"}}`. -/
def sampleMerged : Config :=
  .obj (.ofList [("siteURL", .str "https://a.example"),
    ("mailer", .obj (.ofList [("from", .str "b@x.com")]))])

/-- The update `{siteURL: "https://b.example"}`, which touches another field
than `samplePatch`. -/
def sampleOtherPatch : Config :=
  .obj (.ofList [("siteURL", .str "https://b.example")])

/-- The update `{mailer: "b@x.com"}`: a scalar where the stored value is a
nested object. -/
def sampleBadPatch : Config :=
  .obj (.ofList [("mailer", .str "b@x.com")])

/-- The empty update: no field is set. -/
def emptyPatch : Config := .obj .nil

/-- The context `{siteURL: "https://s.example"}`. -/
def sampleStaging : Config :=
  .obj (.ofList [("siteURL", .str "https://s.example")])

/-- The context update `{mailer: {from: "c@x.com"}}`. -/
def sampleStagingPatch : Config :=
  .obj (.ofList [("mailer", .obj (.ofList [("from", .str "c@x.com")]))])

/-- A stored instance with the sample base configuration and one context,
"production". -/
def sampleInstance : Instance :=
  { ID := "id-1", UUID := "tenant-1", BaseConfig := some sampleBase,
    Contexts := some [("production", sampleStaging)] }

/-- A create request without a `contexts` member: the decoded map is nil. -/
def sampleCreateParams : InstanceRequestParams :=
  { UUID := "tenant-1", BaseConfig := some sampleBase, Contexts := none }

/-- The instance that `CreateInstance` stores for `sampleCreateParams`. -/
def sampleCreated : Instance :=
  { ID := "id-1", UUID := "tenant-1", BaseConfig := some sampleBase, Contexts := none }

/-- An update request carrying the context "staging" only. -/
def sampleContextParams : InstanceRequestParams :=
  { UUID := "", BaseConfig := none, Contexts := some [("staging", sampleStaging)] }

/-- An update request with the base update `{mailer: {from: "b@x.com"}}` only. -/
def samplePatchParams : InstanceRequestParams :=
  { UUID := "", BaseConfig := some samplePatch, Contexts := none }

/-- An update request with the base update `{siteURL: "https://b.example"}` only. -/
def sampleOtherParams : InstanceRequestParams :=
  { UUID := "", BaseConfig := some sampleOtherPatch, Contexts := none }

/-- An update request whose base update is empty. -/
def sampleEmptyParams : InstanceRequestParams :=
  { UUID := "", BaseConfig := some emptyPatch, Contexts := none }

/-- An update request whose base update has the wrong shape and which also
carries the context "staging". -/
def sampleAbortedParams : InstanceRequestParams :=
  { UUID := "", BaseConfig := some sampleBadPatch, Contexts := some [("staging", sampleStaging)] }

/-- An update request that adds the context "staging" and updates the context
"production"; it also names another uuid than the stored one. -/
def sampleTwoContextParams : InstanceRequestParams :=
  { UUID := "tenant-2", BaseConfig := none,
    Contexts := some [("staging", sampleStaging), ("production", sampleStagingPatch)] }

/-- An update request without any member. -/
def sampleNoChangeParams : InstanceRequestParams :=
  { UUID := "", BaseConfig := none, Contexts := none }

/-- A create request that names the uuid of `sampleCreateParams` again. -/
def sampleSecondCreateParams : InstanceRequestParams :=
  { UUID := "tenant-1", BaseConfig := none, Contexts := none }

/-- A stored instance whose base configuration sets `siteURL` only. -/
def sampleSparseInstance : Instance :=
  { ID := "id-3", UUID := "tenant-3", BaseConfig := some sampleStaging, Contexts := some [] }

/-- A stored instance whose base configuration sets no field. -/
def sampleBlankInstance : Instance :=
  { ID := "id-4", UUID := "tenant-4", BaseConfig := some emptyPatch, Contexts := some [] }

/-- A create request without a `config` member: the decoded pointer is nil. -/
def sampleNoConfigCreateParams : InstanceRequestParams :=
  { UUID := "tenant-1", BaseConfig := none, Contexts := some [("production", sampleStaging)] }

/-- The instance that `CreateInstance` stores for `sampleNoConfigCreateParams`. -/
def sampleNoConfigInstance : Instance :=
  { ID := "id-1", UUID := "tenant-1", BaseConfig := none,
    Contexts := some [("production", sampleStaging)] }

/-- An update request with the base update `{mailer: {from: "b@x.com"}}` and the
context "staging". -/
def sampleConfigAndContextParams : InstanceRequestParams :=
  { UUID := "", BaseConfig := some samplePatch, Contexts := some [("staging", sampleStaging)] }

/-! ## The merge engine: field lists -/

theorem Fields.append_nil : ∀ fs : Fields, fs.append .nil = fs
  | .nil => rfl
  | .cons n v rest => by
    show Fields.cons n v (Fields.append rest .nil) = _
    rw [Fields.append_nil rest]

theorem Fields.lookup_append (k : String) : ∀ xs ys : Fields,
    (xs.append ys).lookup k = (match xs.lookup k with
      | some v => some v
      | none => ys.lookup k)
  | .nil, ys => rfl
  | .cons n v rest, ys => by
    show Fields.lookup k (Fields.cons n v (Fields.append rest ys)) = _
    by_cases h : n = k
    · simp [Fields.lookup, h]
    · simp [Fields.lookup, h, Fields.lookup_append k rest ys]

theorem Fields.without_eq_nil (dst : Fields) : ∀ fs : Fields,
    dst.covers fs = true → Fields.without dst fs = .nil
  | .nil, _ => rfl
  | .cons n v rest, h => by
    simp only [Fields.covers, Bool.and_eq_true] at h
    obtain ⟨h1, h2⟩ := h
    cases hl : dst.lookup n with
    | none => simp [hl] at h1
    | some d => simp [Fields.without, hl, Fields.without_eq_nil dst rest h2]

theorem Fields.lookup_without (dst : Fields) (k : String) : ∀ fs : Fields,
    dst.lookup k = none → (Fields.without dst fs).lookup k = fs.lookup k
  | .nil, _ => rfl
  | .cons n v rest, h => by
    by_cases hn : n = k
    · subst hn
      simp [Fields.without, h, Fields.lookup]
    · cases hl : dst.lookup n with
      | none => simp [Fields.without, hl, Fields.lookup, hn, Fields.lookup_without dst k rest h]
      | some d => simp [Fields.without, hl, Fields.lookup, hn, Fields.lookup_without dst k rest h]

theorem Fields.allZero_lookup (k : String) : ∀ fs : Fields, fs.allZero = true →
    ∀ v, fs.lookup k = some v → v.isZero = true
  | .nil, _, v, h => by simp [Fields.lookup] at h
  | .cons n c rest, hz, v, h => by
    simp only [Fields.allZero, Bool.and_eq_true] at hz
    by_cases hn : n = k
    · simp [Fields.lookup, hn] at h
      subst h
      exact hz.1
    · simp [Fields.lookup, hn] at h
      exact Fields.allZero_lookup k rest hz.2 v h

theorem conformsFields_lookup (fs : Fields) (k : String) : ∀ fd : Fields,
    conformsFields fs fd = true → ∀ dv sv, fd.lookup k = some dv → fs.lookup k = some sv →
      conforms sv dv = true
  | .nil, _, dv, sv, h, _ => by simp [Fields.lookup] at h
  | .cons n d rest, hc, dv, sv, h, hs => by
    simp only [conformsFields, Bool.and_eq_true] at hc
    by_cases hn : n = k
    · subst hn
      simp [Fields.lookup] at h
      subst h
      have := hc.1
      simp [hs] at this
      exact this
    · simp [Fields.lookup, hn] at h
      exact conformsFields_lookup fs k rest hc.2 dv sv h hs

theorem mergeFields_cons_ok (n : String) (d : Config) (rest fs m : Fields) :
    mergeFields (.cons n d rest) fs = .ok m ↔
      ∃ x r, m = .cons n x r ∧ mergeFields rest fs = .ok r ∧
        (match fs.lookup n with
          | none => x = d
          | some v => merge d v = .ok x) := by
  rw [mergeFields]
  cases hs : fs.lookup n with
  | none =>
    dsimp only
    cases hr : mergeFields rest fs with
    | error e => simp
    | ok r =>
      simp only [Except.ok.injEq]
      constructor
      · intro h
        exact ⟨d, r, h.symm, rfl, rfl⟩
      · rintro ⟨x, r2, rfl, hr2, rfl⟩
        rw [hr2]
  | some v =>
    dsimp only
    cases hm : merge d v with
    | error e => simp
    | ok x =>
      dsimp only
      cases hr : mergeFields rest fs with
      | error e => simp
      | ok r =>
        simp only [Except.ok.injEq]
        constructor
        · intro h
          exact ⟨x, r, h.symm, rfl, rfl⟩
        · rintro ⟨x2, r2, rfl, hr2, hx⟩
          rw [hr2, hx]

theorem mergeFields_lookup (fs : Fields) (k : String) : ∀ fd m : Fields,
    mergeFields fd fs = .ok m →
      (fd.lookup k = none → m.lookup k = none) ∧
      (∀ dv, fd.lookup k = some dv → fs.lookup k = none → m.lookup k = some dv) ∧
      (∀ dv sv, fd.lookup k = some dv → fs.lookup k = some sv →
        ∃ x, merge dv sv = .ok x ∧ m.lookup k = some x)
  | .nil, m, h => by
    simp [mergeFields] at h
    subst h
    simp [Fields.lookup]
  | .cons n d rest, m, h => by
    obtain ⟨x, r, rfl, hr, hx⟩ := (mergeFields_cons_ok n d rest fs m).1 h
    have ih := mergeFields_lookup fs k rest r hr
    by_cases hn : n = k
    · subst hn
      cases hs : fs.lookup n with
      | none =>
        rw [hs] at hx
        subst hx
        simp [Fields.lookup]
      | some v =>
        rw [hs] at hx
        simp [Fields.lookup, hx]
    · simpa [Fields.lookup, hn] using ih
/-! ## The merge engine: values -/

theorem merge_obj_ok (fd fs : Fields) (m : Config) :
    merge (.obj fd) (.obj fs) = .ok m ↔
      ∃ mf, mergeFields fd fs = .ok mf ∧ m = .obj (mf.append (Fields.without fd fs)) := by
  rw [merge]
  cases hr : mergeFields fd fs with
  | error e => simp
  | ok r =>
    simp only [Except.ok.injEq]
    constructor
    · intro h
      exact ⟨r, rfl, h.symm⟩
    · rintro ⟨mf, rfl, rfl⟩
      rfl

mutual
theorem merge_zero : ∀ d s : Config, conforms s d = true → s.isZero = true → merge d s = .ok d
  | .str d, .str s, _, hz => by
    simp only [Config.isZero, decide_eq_true_eq] at hz
    simp [merge, hz]
  | .num d, .num s, _, hz => by
    simp only [Config.isZero, decide_eq_true_eq] at hz
    simp [merge, hz]
  | .bool d, .bool s, _, hz => by
    simp only [Config.isZero, decide_eq_true_eq] at hz
    simp [merge, hz]
  | .seq d, .seq s, _, hz => by
    simp only [Config.isZero, decide_eq_true_eq] at hz
    simp [merge, hz]
  | .obj fd, .obj fs, hc, hz => by
    simp only [conforms, Bool.and_eq_true] at hc
    simp only [Config.isZero] at hz
    rw [merge_obj_ok]
    refine ⟨fd, mergeFields_zero fd fs hc.1 hz, ?_⟩
    rw [Fields.without_eq_nil fd fs hc.2, Fields.append_nil]
  | .str _, .num _, hc, _ | .str _, .bool _, hc, _ | .str _, .seq _, hc, _
  | .str _, .obj _, hc, _ | .num _, .str _, hc, _ | .num _, .bool _, hc, _
  | .num _, .seq _, hc, _ | .num _, .obj _, hc, _ | .bool _, .str _, hc, _
  | .bool _, .num _, hc, _ | .bool _, .seq _, hc, _ | .bool _, .obj _, hc, _
  | .seq _, .str _, hc, _ | .seq _, .num _, hc, _ | .seq _, .bool _, hc, _
  | .seq _, .obj _, hc, _ | .obj _, .str _, hc, _ | .obj _, .num _, hc, _
  | .obj _, .bool _, hc, _ | .obj _, .seq _, hc, _ => by simp [conforms] at hc
theorem mergeFields_zero : ∀ fd fs : Fields, conformsFields fs fd = true → fs.allZero = true →
    mergeFields fd fs = .ok fd
  | .nil, _, _, _ => by simp [mergeFields]
  | .cons n d rest, fs, hc, hz => by
    simp only [conformsFields, Bool.and_eq_true] at hc
    rw [mergeFields_cons_ok]
    refine ⟨d, rest, rfl, mergeFields_zero rest fs hc.2 hz, ?_⟩
    cases hs : fs.lookup n with
    | none => rfl
    | some v =>
      have h1 := hc.1
      rw [hs] at h1
      exact merge_zero d v h1 (Fields.allZero_lookup n fs hz v hs)
end

/-- Kinds agree when an update conforms: the two values are leaves of one kind
or two objects. -/
theorem conforms_cases (s d : Config) (h : conforms s d = true) :
    (∃ a b, s = .str a ∧ d = .str b) ∨ (∃ a b, s = .num a ∧ d = .num b) ∨
    (∃ a b, s = .bool a ∧ d = .bool b) ∨ (∃ a b, s = .seq a ∧ d = .seq b) ∨
    (∃ fs fd, s = .obj fs ∧ d = .obj fd ∧ conformsFields fs fd = true ∧ fd.covers fs = true) := by
  cases s <;> cases d <;> simp_all [conforms]

mutual
theorem merge_total : ∀ d s : Config, conforms s d = true → ∃ m, merge d s = .ok m
  | .str _, s, hc | .num _, s, hc | .bool _, s, hc | .seq _, s, hc => by
    rcases conforms_cases _ _ hc with ⟨a, b, rfl, h⟩ | ⟨a, b, rfl, h⟩ | ⟨a, b, rfl, h⟩ |
      ⟨a, b, rfl, h⟩ | ⟨fs, fd, rfl, h, _⟩ <;> cases h
    all_goals exact ⟨_, by rw [merge]⟩
  | .obj fd, s, hc => by
    rcases conforms_cases _ _ hc with ⟨a, b, rfl, h⟩ | ⟨a, b, rfl, h⟩ | ⟨a, b, rfl, h⟩ |
      ⟨a, b, rfl, h⟩ | ⟨fs, fd2, rfl, h, hcf, _⟩ <;> cases h
    obtain ⟨mf, hmf⟩ := mergeFields_total fd fs hcf
    exact ⟨_, (merge_obj_ok fd fs _).2 ⟨mf, hmf, rfl⟩⟩
theorem mergeFields_total : ∀ fd fs : Fields, conformsFields fs fd = true →
    ∃ m, mergeFields fd fs = .ok m
  | .nil, _, _ => ⟨.nil, by simp [mergeFields]⟩
  | .cons n d rest, fs, hc => by
    simp only [conformsFields, Bool.and_eq_true] at hc
    obtain ⟨r, hr⟩ := mergeFields_total rest fs hc.2
    cases hs : fs.lookup n with
    | none => exact ⟨.cons n d r, (mergeFields_cons_ok n d rest fs _).2 ⟨d, r, rfl, hr, by rw [hs]⟩⟩
    | some v =>
      have h1 := hc.1
      rw [hs] at h1
      obtain ⟨x, hx⟩ := merge_total d v h1
      exact ⟨.cons n x r, (mergeFields_cons_ok n d rest fs _).2 ⟨x, r, rfl, hr, by rw [hs]; exact hx⟩⟩
end

/-! ## The merge engine: what a merge does at each path -/

theorem Config.get_nil (c : Config) : c.get [] = some c := by
  cases c <;> rfl

theorem Config.get_obj_cons (fs : Fields) (n : String) (rest : List String) :
    (Config.obj fs).get (n :: rest) = (match fs.lookup n with
      | some v => v.get rest
      | none => none) := rfl

theorem Config.get_leaf_cons (c : Config) (n : String) (rest : List String)
    (h : c.isLeaf = true) : c.get (n :: rest) = none := by
  cases c <;> first | rfl | simp [Config.isLeaf] at h

/-- A merge that succeeds on a leaf of `src` that is not zero gives that leaf. -/
theorem merge_leaf_touched (d s m : Config) (h : merge d s = .ok m) (hl : s.isLeaf = true)
    (hz : s.isZero = false) : m = s := by
  cases s with
  | str a =>
    cases d <;> simp only [merge, Except.ok.injEq, reduceCtorEq] at h
    simp only [Config.isZero, decide_eq_false_iff_not] at hz
    rw [if_neg hz] at h
    exact h.symm
  | num a =>
    cases d <;> simp only [merge, Except.ok.injEq, reduceCtorEq] at h
    simp only [Config.isZero, decide_eq_false_iff_not] at hz
    rw [if_neg hz] at h
    exact h.symm
  | bool a =>
    cases d <;> simp only [merge, Except.ok.injEq, reduceCtorEq] at h
    simp only [Config.isZero, decide_eq_false_iff_not] at hz
    rw [if_neg hz] at h
    exact h.symm
  | seq a =>
    cases d <;> simp only [merge, Except.ok.injEq, reduceCtorEq] at h
    simp only [Config.isZero, decide_eq_false_iff_not] at hz
    rw [if_neg hz] at h
    exact h.symm
  | obj fs => simp [Config.isLeaf] at hl

/-- A leaf of `src` that is not zero is the value of the merge at that path. -/
theorem merge_get_touched : ∀ (p : List String) (d s m v : Config), merge d s = .ok m →
    s.get p = some v → v.isLeaf = true → v.isZero = false → m.get p = some v
  | [], d, s, m, v, h, hg, hl, hz => by
    rw [Config.get_nil] at hg
    cases hg
    rw [merge_leaf_touched d s m h hl hz, Config.get_nil]
  | n :: rest, d, s, m, v, h, hg, hl, hz => by
    cases s with
    | obj fs =>
      cases d with
      | obj fd =>
        obtain ⟨mf, hmf, rfl⟩ := (merge_obj_ok fd fs m).1 h
        rw [Config.get_obj_cons] at hg ⊢
        rw [Fields.lookup_append]
        cases hs : fs.lookup n with
        | none => rw [hs] at hg; simp at hg
        | some sv =>
          rw [hs] at hg
          obtain ⟨h1, _, h3⟩ := mergeFields_lookup fs n fd mf hmf
          cases hd : fd.lookup n with
          | none =>
            rw [h1 hd, Fields.lookup_without fd n fs hd, hs]
            exact hg
          | some dv =>
            obtain ⟨x, hx, hlx⟩ := h3 dv sv hd hs
            rw [hlx]
            exact merge_get_touched rest dv sv x v hx hg hl hz
      | _ => simp [merge] at h
    | _ => simp [Config.get] at hg

/-- A path at which a conforming `src` is unset or zero keeps the value of `dst`. -/
theorem merge_get_untouched : ∀ (p : List String) (d s m : Config), conforms s d = true →
    merge d s = .ok m → (s.get p = none ∨ ∃ v, s.get p = some v ∧ v.isZero = true) →
    m.get p = d.get p
  | [], d, s, m, hc, h, hg => by
    rw [Config.get_nil] at hg
    rcases hg with hg | ⟨v, hg, hz⟩
    · simp at hg
    · cases hg
      rw [merge_zero d s hc hz] at h
      cases h
      rfl
  | n :: rest, d, s, m, hc, h, hg => by
    rcases conforms_cases _ _ hc with ⟨a, b, rfl, rfl⟩ | ⟨a, b, rfl, rfl⟩ | ⟨a, b, rfl, rfl⟩ |
      ⟨a, b, rfl, rfl⟩ | ⟨fs, fd, rfl, rfl, hcf, hcov⟩
    · simp only [merge, Except.ok.injEq] at h; subst h; rfl
    · simp only [merge, Except.ok.injEq] at h; subst h; rfl
    · simp only [merge, Except.ok.injEq] at h; subst h; rfl
    · simp only [merge, Except.ok.injEq] at h; subst h; rfl
    · obtain ⟨mf, hmf, rfl⟩ := (merge_obj_ok fd fs m).1 h
      rw [Fields.without_eq_nil fd fs hcov, Fields.append_nil]
      rw [Config.get_obj_cons] at hg ⊢
      rw [Config.get_obj_cons]
      obtain ⟨h1, h2, h3⟩ := mergeFields_lookup fs n fd mf hmf
      cases hd : fd.lookup n with
      | none => rw [h1 hd]
      | some dv =>
        cases hs : fs.lookup n with
        | none => rw [h2 dv hd hs]
        | some sv =>
          obtain ⟨x, hx, hlx⟩ := h3 dv sv hd hs
          rw [hlx]
          rw [hs] at hg
          exact merge_get_untouched rest dv sv x (conformsFields_lookup fs n fd hcf dv sv hd hs) hx hg

/-! ## The merge engine: updates that touch different fields -/

theorem Config.touches_leaf_nil (c : Config) (hl : c.isLeaf = true) (hz : c.isZero = false) :
    c.touches [] :=
  ⟨c, Config.get_nil c, hl, hz⟩

theorem Config.touches_obj_cons (fs : Fields) (n : String) (p : List String) (v : Config)
    (hv : fs.lookup n = some v) (ht : v.touches p) : (Config.obj fs).touches (n :: p) := by
  obtain ⟨w, hw, hl, hz⟩ := ht
  refine ⟨w, ?_, hl, hz⟩
  rw [Config.get_obj_cons, hv]
  exact hw

theorem mergeFields_covers (fs : Fields) (fd m : Fields) (h : mergeFields fd fs = .ok m) :
    ∀ gs : Fields, fd.covers gs = true → m.covers gs = true
  | .nil, _ => rfl
  | .cons n v rest, hc => by
    simp only [Fields.covers, Bool.and_eq_true] at hc ⊢
    refine ⟨?_, mergeFields_covers fs fd m h rest hc.2⟩
    obtain ⟨_, h2, h3⟩ := mergeFields_lookup fs n fd m h
    cases hd : fd.lookup n with
    | none => rw [hd] at hc; simp at hc
    | some dv =>
      cases hs : fs.lookup n with
      | none => rw [h2 dv hd hs]; rfl
      | some sv =>
        obtain ⟨x, _, hx⟩ := h3 dv sv hd hs
        rw [hx]; rfl

mutual
theorem merge_comm : ∀ d s1 s2 : Config, conforms s1 d = true → conforms s2 d = true →
    (∀ p, ¬ (s1.touches p ∧ s2.touches p)) →
    ∃ m1 m2 m, merge d s1 = .ok m1 ∧ merge m1 s2 = .ok m ∧
      merge d s2 = .ok m2 ∧ merge m2 s1 = .ok m
  | .str x, s1, s2, hc1, hc2, hdis => by
    rcases conforms_cases _ _ hc1 with ⟨a, _, rfl, h⟩ | ⟨a, _, rfl, h⟩ | ⟨a, _, rfl, h⟩ |
      ⟨a, _, rfl, h⟩ | ⟨_, _, rfl, h, _⟩ <;> cases h
    rcases conforms_cases _ _ hc2 with ⟨b, _, rfl, h⟩ | ⟨b, _, rfl, h⟩ | ⟨b, _, rfl, h⟩ |
      ⟨b, _, rfl, h⟩ | ⟨_, _, rfl, h, _⟩ <;> cases h
    refine ⟨_, _, _, by rw [merge], by rw [merge], by rw [merge], ?_⟩
    rw [merge]
    by_cases ha : a = ""
    · simp [ha]
    · by_cases hb : b = ""
      · simp [hb]
      · exact absurd ⟨Config.touches_leaf_nil _ rfl (by simpa [Config.isZero] using ha),
          Config.touches_leaf_nil _ rfl (by simpa [Config.isZero] using hb)⟩ (hdis [])
  | .num x, s1, s2, hc1, hc2, hdis => by
    rcases conforms_cases _ _ hc1 with ⟨a, _, rfl, h⟩ | ⟨a, _, rfl, h⟩ | ⟨a, _, rfl, h⟩ |
      ⟨a, _, rfl, h⟩ | ⟨_, _, rfl, h, _⟩ <;> cases h
    rcases conforms_cases _ _ hc2 with ⟨b, _, rfl, h⟩ | ⟨b, _, rfl, h⟩ | ⟨b, _, rfl, h⟩ |
      ⟨b, _, rfl, h⟩ | ⟨_, _, rfl, h, _⟩ <;> cases h
    refine ⟨_, _, _, by rw [merge], by rw [merge], by rw [merge], ?_⟩
    rw [merge]
    by_cases ha : a = 0
    · simp [ha]
    · by_cases hb : b = 0
      · simp [hb]
      · exact absurd ⟨Config.touches_leaf_nil _ rfl (by simpa [Config.isZero] using ha),
          Config.touches_leaf_nil _ rfl (by simpa [Config.isZero] using hb)⟩ (hdis [])
  | .bool x, s1, s2, hc1, hc2, hdis => by
    rcases conforms_cases _ _ hc1 with ⟨a, _, rfl, h⟩ | ⟨a, _, rfl, h⟩ | ⟨a, _, rfl, h⟩ |
      ⟨a, _, rfl, h⟩ | ⟨_, _, rfl, h, _⟩ <;> cases h
    rcases conforms_cases _ _ hc2 with ⟨b, _, rfl, h⟩ | ⟨b, _, rfl, h⟩ | ⟨b, _, rfl, h⟩ |
      ⟨b, _, rfl, h⟩ | ⟨_, _, rfl, h, _⟩ <;> cases h
    refine ⟨_, _, _, by rw [merge], by rw [merge], by rw [merge], ?_⟩
    rw [merge]
    by_cases ha : a = false
    · simp [ha]
    · by_cases hb : b = false
      · simp [hb]
      · exact absurd ⟨Config.touches_leaf_nil _ rfl (by simpa [Config.isZero] using ha),
          Config.touches_leaf_nil _ rfl (by simpa [Config.isZero] using hb)⟩ (hdis [])
  | .seq x, s1, s2, hc1, hc2, hdis => by
    rcases conforms_cases _ _ hc1 with ⟨a, _, rfl, h⟩ | ⟨a, _, rfl, h⟩ | ⟨a, _, rfl, h⟩ |
      ⟨a, _, rfl, h⟩ | ⟨_, _, rfl, h, _⟩ <;> cases h
    rcases conforms_cases _ _ hc2 with ⟨b, _, rfl, h⟩ | ⟨b, _, rfl, h⟩ | ⟨b, _, rfl, h⟩ |
      ⟨b, _, rfl, h⟩ | ⟨_, _, rfl, h, _⟩ <;> cases h
    refine ⟨_, _, _, by rw [merge], by rw [merge], by rw [merge], ?_⟩
    rw [merge]
    by_cases ha : a = []
    · simp [ha]
    · by_cases hb : b = []
      · simp [hb]
      · exact absurd ⟨Config.touches_leaf_nil _ rfl (by simpa [Config.isZero] using ha),
          Config.touches_leaf_nil _ rfl (by simpa [Config.isZero] using hb)⟩ (hdis [])
  | .obj fd, s1, s2, hc1, hc2, hdis => by
    rcases conforms_cases _ _ hc1 with ⟨_, _, rfl, h⟩ | ⟨_, _, rfl, h⟩ | ⟨_, _, rfl, h⟩ |
      ⟨_, _, rfl, h⟩ | ⟨f1, _, rfl, h, hcf1, hcov1⟩ <;> cases h
    rcases conforms_cases _ _ hc2 with ⟨_, _, rfl, h⟩ | ⟨_, _, rfl, h⟩ | ⟨_, _, rfl, h⟩ |
      ⟨_, _, rfl, h⟩ | ⟨f2, _, rfl, h, hcf2, hcov2⟩ <;> cases h
    obtain ⟨m1, m2, m, h1, h12, h2, h21⟩ := mergeFields_comm fd f1 f2 hcf1 hcf2
      (fun n v1 v2 hv1 hv2 p hp =>
        hdis (n :: p) ⟨Config.touches_obj_cons f1 n p v1 hv1 hp.1,
          Config.touches_obj_cons f2 n p v2 hv2 hp.2⟩)
    refine ⟨.obj m1, .obj m2, .obj m, ?_, ?_, ?_, ?_⟩
    · rw [merge_obj_ok]
      exact ⟨m1, h1, by rw [Fields.without_eq_nil fd f1 hcov1, Fields.append_nil]⟩
    · rw [merge_obj_ok]
      exact ⟨m, h12, by
        rw [Fields.without_eq_nil m1 f2 (mergeFields_covers f1 fd m1 h1 f2 hcov2),
          Fields.append_nil]⟩
    · rw [merge_obj_ok]
      exact ⟨m2, h2, by rw [Fields.without_eq_nil fd f2 hcov2, Fields.append_nil]⟩
    · rw [merge_obj_ok]
      exact ⟨m, h21, by
        rw [Fields.without_eq_nil m2 f1 (mergeFields_covers f2 fd m2 h2 f1 hcov1),
          Fields.append_nil]⟩
theorem mergeFields_comm : ∀ fd f1 f2 : Fields, conformsFields f1 fd = true →
    conformsFields f2 fd = true →
    (∀ n v1 v2, f1.lookup n = some v1 → f2.lookup n = some v2 →
      ∀ p, ¬ (v1.touches p ∧ v2.touches p)) →
    ∃ m1 m2 m, mergeFields fd f1 = .ok m1 ∧ mergeFields m1 f2 = .ok m ∧
      mergeFields fd f2 = .ok m2 ∧ mergeFields m2 f1 = .ok m
  | .nil, _, _, _, _, _ => ⟨.nil, .nil, .nil, by simp [mergeFields], by simp [mergeFields],
      by simp [mergeFields], by simp [mergeFields]⟩
  | .cons n d rest, f1, f2, hc1, hc2, hdis => by
    simp only [conformsFields, Bool.and_eq_true] at hc1 hc2
    obtain ⟨r1, r2, r, hr1, hr12, hr2, hr21⟩ := mergeFields_comm rest f1 f2 hc1.2 hc2.2 hdis
    cases hs1 : f1.lookup n with
    | none =>
      cases hs2 : f2.lookup n with
      | none =>
        refine ⟨.cons n d r1, .cons n d r2, .cons n d r, ?_, ?_, ?_, ?_⟩ <;>
          rw [mergeFields_cons_ok]
        · exact ⟨d, r1, rfl, hr1, by rw [hs1]⟩
        · exact ⟨d, r, rfl, hr12, by rw [hs2]⟩
        · exact ⟨d, r2, rfl, hr2, by rw [hs2]⟩
        · exact ⟨d, r, rfl, hr21, by rw [hs1]⟩
      | some v2 =>
        have h2 := hc2.1
        rw [hs2] at h2
        obtain ⟨x, hx⟩ := merge_total d v2 h2
        refine ⟨.cons n d r1, .cons n x r2, .cons n x r, ?_, ?_, ?_, ?_⟩ <;>
          rw [mergeFields_cons_ok]
        · exact ⟨d, r1, rfl, hr1, by rw [hs1]⟩
        · exact ⟨x, r, rfl, hr12, by rw [hs2]; exact hx⟩
        · exact ⟨x, r2, rfl, hr2, by rw [hs2]; exact hx⟩
        · exact ⟨x, r, rfl, hr21, by rw [hs1]⟩
    | some v1 =>
      have h1 := hc1.1
      rw [hs1] at h1
      cases hs2 : f2.lookup n with
      | none =>
        obtain ⟨x, hx⟩ := merge_total d v1 h1
        refine ⟨.cons n x r1, .cons n d r2, .cons n x r, ?_, ?_, ?_, ?_⟩ <;>
          rw [mergeFields_cons_ok]
        · exact ⟨x, r1, rfl, hr1, by rw [hs1]; exact hx⟩
        · exact ⟨x, r, rfl, hr12, by rw [hs2]⟩
        · exact ⟨d, r2, rfl, hr2, by rw [hs2]⟩
        · exact ⟨x, r, rfl, hr21, by rw [hs1]; exact hx⟩
      | some v2 =>
        have h2 := hc2.1
        rw [hs2] at h2
        obtain ⟨x1, x2, x, hx1, hx12, hx2, hx21⟩ := merge_comm d v1 v2 h1 h2 (hdis n v1 v2 hs1 hs2)
        refine ⟨.cons n x1 r1, .cons n x2 r2, .cons n x r, ?_, ?_, ?_, ?_⟩ <;>
          rw [mergeFields_cons_ok]
        · exact ⟨x1, r1, rfl, hr1, by rw [hs1]; exact hx1⟩
        · exact ⟨x, r, rfl, hr12, by rw [hs2]; exact hx12⟩
        · exact ⟨x2, r2, rfl, hr2, by rw [hs2]; exact hx2⟩
        · exact ⟨x, r, rfl, hr21, by rw [hs1]; exact hx21⟩
end

/-! ## The merge engine: values of one schema -/

theorem fits_cases (x f : Config) (h : fits x f = true) :
    (∃ a b, x = .str a ∧ f = .str b) ∨ (∃ a b, x = .num a ∧ f = .num b) ∨
    (∃ a b, x = .bool a ∧ f = .bool b) ∨ (∃ a b, x = .seq a ∧ f = .seq b) ∨
    (∃ fs sch, x = .obj fs ∧ f = .obj sch ∧ fitsFields fs sch = true) := by
  cases x <;> cases f <;> simp_all [fits]

theorem fitsFields_cons (n : String) (v : Config) (rest sch : Fields) :
    fitsFields (.cons n v rest) sch = true ↔
      (∃ f, sch.lookup n = some f ∧ fits v f = true) ∧ fitsFields rest sch = true := by
  rw [fitsFields]
  cases hl : sch.lookup n with
  | none => simp
  | some f => simp

theorem fitsFields_lookup (sch : Fields) (k : String) : ∀ fs : Fields,
    fitsFields fs sch = true → ∀ v, fs.lookup k = some v →
      ∃ f, sch.lookup k = some f ∧ fits v f = true
  | .nil, _, v, h => by simp [Fields.lookup] at h
  | .cons n c rest, hf, v, h => by
    obtain ⟨⟨f, hl, hfit⟩, hrest⟩ := (fitsFields_cons n c rest sch).1 hf
    by_cases hn : n = k
    · subst hn
      simp [Fields.lookup] at h
      subst h
      exact ⟨f, hl, hfit⟩
    · simp [Fields.lookup, hn] at h
      exact fitsFields_lookup sch k rest hrest v h

theorem fitsFields_append (sch : Fields) : ∀ xs ys : Fields,
    fitsFields xs sch = true → fitsFields ys sch = true → fitsFields (xs.append ys) sch = true
  | .nil, _, _, hy => hy
  | .cons n v rest, ys, hx, hy => by
    obtain ⟨hv, hrest⟩ := (fitsFields_cons n v rest sch).1 hx
    show fitsFields (Fields.cons n v (Fields.append rest ys)) sch = true
    exact (fitsFields_cons n v _ sch).2 ⟨hv, fitsFields_append sch rest ys hrest hy⟩

theorem fitsFields_without (sch dst : Fields) : ∀ fs : Fields,
    fitsFields fs sch = true → fitsFields (Fields.without dst fs) sch = true
  | .nil, _ => rfl
  | .cons n v rest, hf => by
    obtain ⟨hv, hrest⟩ := (fitsFields_cons n v rest sch).1 hf
    have ih := fitsFields_without sch dst rest hrest
    cases hl : dst.lookup n with
    | some d => simpa [Fields.without, hl] using ih
    | none =>
      simp only [Fields.without, hl]
      exact (fitsFields_cons n v _ sch).2 ⟨hv, ih⟩

mutual
/-- Two values of one schema always merge, and the merge is a value of that
schema. -/
theorem merge_fits : ∀ d s f : Config, fits d f = true → fits s f = true →
    ∃ m, merge d s = .ok m ∧ fits m f = true
  | .str _, s, f, hd, hs | .num _, s, f, hd, hs | .bool _, s, f, hd, hs
  | .seq _, s, f, hd, hs => by
    rcases fits_cases _ _ hd with ⟨_, _, h, rfl⟩ | ⟨_, _, h, rfl⟩ | ⟨_, _, h, rfl⟩ |
      ⟨_, _, h, rfl⟩ | ⟨_, _, h, rfl, _⟩ <;> cases h
    all_goals
      rcases fits_cases _ _ hs with ⟨_, _, rfl, h⟩ | ⟨_, _, rfl, h⟩ | ⟨_, _, rfl, h⟩ |
        ⟨_, _, rfl, h⟩ | ⟨_, _, rfl, h, _⟩ <;> cases h
      exact ⟨_, by rw [merge], by rw [fits]⟩
  | .obj fd, s, f, hd, hs => by
    rcases fits_cases _ _ hd with ⟨_, _, h, rfl⟩ | ⟨_, _, h, rfl⟩ | ⟨_, _, h, rfl⟩ |
      ⟨_, _, h, rfl⟩ | ⟨_, sch, h, rfl, hfd⟩ <;> cases h
    rcases fits_cases _ _ hs with ⟨_, _, rfl, h⟩ | ⟨_, _, rfl, h⟩ | ⟨_, _, rfl, h⟩ |
      ⟨_, _, rfl, h⟩ | ⟨fs, _, rfl, h, hfs⟩ <;> cases h
    obtain ⟨mf, hmf, hfit⟩ := mergeFields_fits fd fs sch hfd hfs
    refine ⟨_, (merge_obj_ok fd fs _).2 ⟨mf, hmf, rfl⟩, ?_⟩
    rw [fits]
    exact fitsFields_append sch mf _ hfit (fitsFields_without sch fd fs hfs)
theorem mergeFields_fits : ∀ fd fs sch : Fields, fitsFields fd sch = true →
    fitsFields fs sch = true → ∃ mf, mergeFields fd fs = .ok mf ∧ fitsFields mf sch = true
  | .nil, _, _, _, _ => ⟨.nil, by simp [mergeFields], rfl⟩
  | .cons n d rest, fs, sch, hd, hs => by
    obtain ⟨⟨f, hl, hfit⟩, hrest⟩ := (fitsFields_cons n d rest sch).1 hd
    obtain ⟨r, hr, hrf⟩ := mergeFields_fits rest fs sch hrest hs
    cases hsl : fs.lookup n with
    | none =>
      exact ⟨.cons n d r, (mergeFields_cons_ok n d rest fs _).2 ⟨d, r, rfl, hr, by rw [hsl]⟩,
        (fitsFields_cons n d r sch).2 ⟨⟨f, hl, hfit⟩, hrf⟩⟩
    | some v =>
      obtain ⟨f2, hl2, hfit2⟩ := fitsFields_lookup sch n fs hs v hsl
      rw [hl] at hl2
      cases hl2
      obtain ⟨x, hx, hxf⟩ := merge_fits d v f hfit hfit2
      exact ⟨.cons n x r,
        (mergeFields_cons_ok n d rest fs _).2 ⟨x, r, rfl, hr, by rw [hsl]; exact hx⟩,
        (fitsFields_cons n x r sch).2 ⟨⟨f, hl, hxf⟩, hrf⟩⟩
end

/-! ## The merge engine: the value at each path -/

/-- A merge succeeds only on two values of one kind. -/
theorem merge_sameKind (d s m : Config) (h : merge d s = .ok m) : d.sameKind s = true := by
  cases d <;> cases s <;> first | rfl | simp [merge] at h

/-- A merge of two objects gives an object, a merge of two leaves a leaf. -/
theorem merge_sameKind_result (d s m : Config) (h : merge d s = .ok m) :
    m.sameKind s = true := by
  cases d <;> cases s <;> simp only [merge, Except.ok.injEq, reduceCtorEq] at h
  case obj.obj fd fs =>
    obtain ⟨mf, _, rfl⟩ := (merge_obj_ok fd fs m).1 (by rw [merge]; exact h)
    rfl
  all_goals subst h; rfl

/-- A zero leaf of `src` leaves the destination as it is. -/
theorem merge_leaf_zero (d s m : Config) (h : merge d s = .ok m) (hl : s.isLeaf = true)
    (hz : s.isZero = true) : m = d := by
  cases s with
  | str a =>
    cases d <;> simp only [merge, Except.ok.injEq, reduceCtorEq] at h
    simp only [Config.isZero, decide_eq_true_eq] at hz
    rw [if_pos hz] at h
    exact h.symm
  | num a =>
    cases d <;> simp only [merge, Except.ok.injEq, reduceCtorEq] at h
    simp only [Config.isZero, decide_eq_true_eq] at hz
    rw [if_pos hz] at h
    exact h.symm
  | bool a =>
    cases d <;> simp only [merge, Except.ok.injEq, reduceCtorEq] at h
    simp only [Config.isZero, decide_eq_true_eq] at hz
    rw [if_pos hz] at h
    exact h.symm
  | seq a =>
    cases d <;> simp only [merge, Except.ok.injEq, reduceCtorEq] at h
    simp only [Config.isZero, decide_eq_true_eq] at hz
    rw [if_pos hz] at h
    exact h.symm
  | obj fs => simp [Config.isLeaf] at hl

theorem Config.sameKind_leaf (x v : Config) (h : x.sameKind v = true) :
    x.isLeaf = v.isLeaf := by
  cases x <;> cases v <;> first | rfl | simp [Config.sameKind] at h

theorem Config.sameKind_refl (x : Config) : x.sameKind x = true := by
  cases x <;> rfl

theorem Config.sameKind_of_both (z a b : Config) (ha : z.sameKind a = true)
    (hb : z.sameKind b = true) : a.sameKind b = true := by
  cases z <;> cases a <;> cases b <;> first | rfl | simp [Config.sameKind] at ha hb

theorem Config.not_leaf_obj (v : Config) (h : v.isLeaf = false) : ∃ fs, v = .obj fs := by
  cases v <;> first | exact ⟨_, rfl⟩ | simp [Config.isLeaf] at h

/-- What a merge holds at a path, by what `src` holds there: unset in `src`
keeps `dst`; a zero leaf keeps what `dst` holds and stands where `dst` holds
nothing; an object gives an object; and where both hold a value the two are
of one kind. -/
theorem merge_get_cases : ∀ (p : List String) (d s m : Config), merge d s = .ok m →
    (s.get p = none → m.get p = d.get p) ∧
    (∀ v, s.get p = some v → v.isLeaf = true → v.isZero = true →
      m.get p = some ((d.get p).getD v)) ∧
    (∀ v, s.get p = some v → v.isLeaf = false → ∃ fm, m.get p = some (.obj fm)) ∧
    (∀ x v, d.get p = some x → s.get p = some v → x.sameKind v = true)
  | [], d, s, m, h => by
    simp only [Config.get_nil, Option.some.injEq, reduceCtorEq, false_implies, true_and]
    refine ⟨?_, ?_, ?_⟩
    · rintro v rfl hl hz
      rw [merge_leaf_zero d s m h hl hz]
      rfl
    · rintro v rfl hl
      obtain ⟨fs, rfl⟩ := Config.not_leaf_obj s hl
      have hk := merge_sameKind_result d _ m h
      cases m <;> first | exact ⟨_, rfl⟩ | simp [Config.sameKind] at hk
    · rintro x v rfl rfl
      exact merge_sameKind _ _ m h
  | n :: rest, d, s, m, h => by
    cases s with
    | obj fs =>
      cases d with
      | obj fd =>
        obtain ⟨mf, hmf, rfl⟩ := (merge_obj_ok fd fs m).1 h
        simp only [Config.get_obj_cons]
        rw [Fields.lookup_append]
        obtain ⟨h1, h2, h3⟩ := mergeFields_lookup fs n fd mf hmf
        cases hd : fd.lookup n with
        | none =>
          rw [h1 hd, Fields.lookup_without fd n fs hd]
          cases hs : fs.lookup n with
          | none => simp
          | some sv =>
            dsimp only
            refine ⟨fun hn => by rw [hn], ?_, ?_, ?_⟩
            · intro v hv _ _
              rw [hv]; rfl
            · intro v hv hl
              obtain ⟨fs2, rfl⟩ := Config.not_leaf_obj v hl
              exact ⟨fs2, hv⟩
            · intro x v hx
              cases hx
        | some dv =>
          cases hs : fs.lookup n with
          | none =>
            rw [h2 dv hd hs]
            simp
          | some sv =>
            obtain ⟨x, hx, hlx⟩ := h3 dv sv hd hs
            rw [hlx]
            exact merge_get_cases rest dv sv x hx
      | _ => simp [merge] at h
    | str a | num a | bool a | seq a =>
      cases d <;> simp only [merge, Except.ok.injEq, reduceCtorEq] at h
      all_goals
        subst h
        simp [Config.get]

theorem Config.peek_leaf (v : Config) (h : v.isLeaf = true) : v.peek = v := by
  cases v <;> first | rfl | simp [Config.isLeaf] at h

theorem Config.peek_isLeaf (v : Config) : v.peek.isLeaf = v.isLeaf := by
  cases v <;> rfl

theorem Config.peek_isZero (v : Config) (h : v.isLeaf = true) : v.peek.isZero = v.isZero := by
  rw [Config.peek_leaf v h]

/-- The value of a merge at a path is the overlay of the values of `dst` and
`src` at that path. -/
theorem merge_peek (p : List String) (d s m : Config) (h : merge d s = .ok m) :
    (m.get p).map Config.peek
      = overlay ((d.get p).map Config.peek) ((s.get p).map Config.peek) := by
  obtain ⟨h1, h2, h3, _⟩ := merge_get_cases p d s m h
  cases hs : s.get p with
  | none => rw [h1 hs]; rfl
  | some v =>
    cases hl : v.isLeaf with
    | false =>
      obtain ⟨fm, hm⟩ := h3 v hs hl
      obtain ⟨fs, rfl⟩ := Config.not_leaf_obj v hl
      rw [hm]
      rfl
    | true =>
      cases hz : v.isZero with
      | false =>
        rw [merge_get_touched p d s m v h hs hl hz]
        simp [overlay, Config.peek_leaf v hl, hl, hz]
      | true =>
        rw [h2 v hs hl hz]
        cases d.get p <;> simp [overlay, Config.peek_leaf v hl, hl, hz]

/-- Where `src` holds a value the merge holds a value of that kind. -/
theorem merge_get_kind (p : List String) (d s m v : Config) (h : merge d s = .ok m)
    (hs : s.get p = some v) : ∃ z, m.get p = some z ∧ z.sameKind v = true := by
  obtain ⟨_, h2, h3, h4⟩ := merge_get_cases p d s m h
  cases hl : v.isLeaf with
  | false =>
    obtain ⟨fm, hm⟩ := h3 v hs hl
    obtain ⟨fs, rfl⟩ := Config.not_leaf_obj v hl
    exact ⟨_, hm, rfl⟩
  | true =>
    cases hz : v.isZero with
    | false => exact ⟨v, merge_get_touched p d s m v h hs hl hz, Config.sameKind_refl v⟩
    | true =>
      cases hd : d.get p with
      | none => exact ⟨v, by rw [h2 v hs hl hz, hd]; rfl, Config.sameKind_refl v⟩
      | some x => exact ⟨x, by rw [h2 v hs hl hz, hd]; rfl, h4 x v hd hs⟩

/-- Two zero leaves of one kind are equal. -/
theorem Config.zero_leaf_unique (a b : Config) (hk : a.sameKind b = true)
    (hla : a.isLeaf = true) (hza : a.isZero = true) (hzb : b.isZero = true) : a = b := by
  cases a <;> cases b <;> simp_all [Config.sameKind, Config.isZero, Config.isLeaf]

/-- Two overlays of values of one kind commute unless both are leaves that are
not zero. -/
theorem overlay_comm (d : Option Config) (a b : Config) (hk : a.sameKind b = true)
    (hdis : ¬ ((a.isLeaf = true ∧ a.isZero = false) ∧ (b.isLeaf = true ∧ b.isZero = false))) :
    overlay (overlay d (some a.peek)) (some b.peek)
      = overlay (overlay d (some b.peek)) (some a.peek) := by
  have hlk := Config.sameKind_leaf a b hk
  cases hla : a.isLeaf with
  | false =>
    have hlb : b.isLeaf = false := by rw [← hlk]; exact hla
    simp [overlay, Config.peek_isLeaf, hla, hlb]
  | true =>
    have hlb : b.isLeaf = true := by rw [← hlk]; exact hla
    rw [Config.peek_leaf a hla, Config.peek_leaf b hlb]
    cases hza : a.isZero with
    | false =>
      cases hzb : b.isZero with
      | false => exact absurd ⟨⟨hla, hza⟩, ⟨hlb, hzb⟩⟩ hdis
      | true => cases d <;> simp [overlay, hla, hlb, hza, hzb]
    | true =>
      cases hzb : b.isZero with
      | false => cases d <;> simp [overlay, hla, hlb, hza, hzb]
      | true =>
        have := Config.zero_leaf_unique a b hk hla hza hzb
        subst this
        rfl

/-- Two updates that touch disjoint sets of leaves give the same nested mapping
in either order, whenever the merges succeed. -/
theorem merge_comm_mapping (d s1 s2 m1 m2 m12 m21 : Config)
    (e1 : merge d s1 = .ok m1) (e12 : merge m1 s2 = .ok m12)
    (e2 : merge d s2 = .ok m2) (e21 : merge m2 s1 = .ok m21)
    (hdis : ∀ p, ¬ (s1.touches p ∧ s2.touches p)) : m12.sameMapping m21 := by
  intro p
  rw [merge_peek p m1 s2 m12 e12, merge_peek p d s1 m1 e1, merge_peek p m2 s1 m21 e21,
    merge_peek p d s2 m2 e2]
  cases h1 : s1.get p with
  | none => rfl
  | some a =>
    cases h2 : s2.get p with
    | none => rfl
    | some b =>
      obtain ⟨z, hz, hza⟩ := merge_get_kind p d s1 m1 a e1 h1
      have hzb := (merge_get_cases p m1 s2 m12 e12).2.2.2 z b hz h2
      refine overlay_comm _ a b (Config.sameKind_of_both z a b hza hzb) ?_
      rintro ⟨⟨hla, hna⟩, ⟨hlb, hnb⟩⟩
      exact hdis p ⟨⟨a, h1, hla, hna⟩, ⟨b, h2, hlb, hnb⟩⟩

theorem Config.sameMapping_refl (a : Config) : a.sameMapping a := fun _ => rfl

/-- Two configurations that are the same nested mapping hold the same leaves. -/
theorem Config.sameMapping_leaf (a b : Config) (h : a.sameMapping b) (p : List String)
    (v : Config) (hl : v.isLeaf = true) (ha : a.get p = some v) : b.get p = some v := by
  have hp := h p
  rw [ha] at hp
  cases hb : b.get p with
  | none => rw [hb] at hp; simp at hp
  | some w =>
    rw [hb] at hp
    simp only [Option.map_some', Option.some.injEq] at hp
    rw [Config.peek_leaf v hl] at hp
    have hw : w.isLeaf = true := by
      rw [← Config.peek_isLeaf, ← hp]; exact hl
    rw [Config.peek_leaf w hw] at hp
    rw [hp]

/-! ## Go maps -/

theorem entryLookup_entryStore (k : String) (v : Config) (j : String) :
    ∀ l : List (String × Config),
      entryLookup j (entryStore k v l) = if k = j then some v else entryLookup j l
  | [] => by simp [entryStore, entryLookup]
  | (n, c) :: rest => by
    by_cases hk : n = k
    · subst hk
      by_cases hj : n = j <;> simp [entryStore, entryLookup, hj]
    · by_cases hj : n = j
      · subst hj
        have hk2 : ¬ k = n := fun h => hk h.symm
        simp [entryStore, entryLookup, hk, hk2]
      · simp [entryStore, entryLookup, hk, hj, entryLookup_entryStore k v j rest]

theorem mapIndex_mapAssign (m next : ContextMap) (k : String) (v : Config) (j : String)
    (h : mapAssign m k v = some next) :
    mapIndex next j = if k = j then some v else mapIndex m j := by
  cases m with
  | none => simp [mapAssign] at h
  | some l =>
    simp only [mapAssign, Option.some.injEq] at h
    subst h
    exact entryLookup_entryStore k v j l

/-! ## The loop over the incoming contexts -/

/-- One round of the loop: the value written under `k`, when the round neither
fails nor faults. -/
theorem reconcileContexts_cons (ctxs : ContextMap) (k : String) (v : Config)
    (rest : List (String × Config)) :
    (∃ e, reconcileContexts ctxs ((k, v) :: rest) = (ctxs, .mergeFailed e) ∧
      ∃ c, mapIndex ctxs k = some c ∧ MergeWithOverwrite (some c) v = .error e) ∨
    (reconcileContexts ctxs ((k, v) :: rest) = (ctxs, .nilMapAssign) ∧ ctxs = none) ∨
    (∃ w next, mapAssign ctxs k w = some next ∧
      reconcileContexts ctxs ((k, v) :: rest) = reconcileContexts next rest ∧
      ((mapIndex ctxs k = none ∧ w = v) ∨
        ∃ c, mapIndex ctxs k = some c ∧ MergeWithOverwrite (some c) v = .ok w)) := by
  rw [reconcileContexts]
  cases hi : mapIndex ctxs k with
  | none =>
    dsimp only
    cases ha : mapAssign ctxs k v with
    | none =>
      refine Or.inr (Or.inl ⟨rfl, ?_⟩)
      cases ctxs with
      | none => rfl
      | some l => simp [mapAssign] at ha
    | some next => exact Or.inr (Or.inr ⟨v, next, ha, rfl, Or.inl ⟨rfl, rfl⟩⟩)
  | some c =>
    dsimp only
    cases hm : MergeWithOverwrite (some c) v with
    | error e => exact Or.inl ⟨e, rfl, c, rfl, hm⟩
    | ok w =>
      dsimp only
      cases ha : mapAssign ctxs k w with
      | none =>
        refine Or.inr (Or.inl ⟨rfl, ?_⟩)
        cases ctxs with
        | none => rfl
        | some l => simp [mapAssign] at ha
      | some next => exact Or.inr (Or.inr ⟨w, next, ha, rfl, Or.inr ⟨c, rfl, hm⟩⟩)

/-- A name that is not an incoming key keeps its context, however the loop ends. -/
theorem reconcileContexts_frame (name : String) : ∀ (entries : List (String × Config))
    (ctxs : ContextMap), name ∉ entries.map Prod.fst →
    mapIndex (reconcileContexts ctxs entries).1 name = mapIndex ctxs name
  | [], _, _ => rfl
  | (k, v) :: rest, ctxs, hn => by
    simp only [List.map_cons, List.mem_cons, not_or] at hn
    rcases reconcileContexts_cons ctxs k v rest with ⟨e, h, _⟩ | ⟨h, _⟩ | ⟨w, next, ha, h, _⟩
    · rw [h]
    · rw [h]
    · rw [h, reconcileContexts_frame name rest next hn.2, mapIndex_mapAssign ctxs next k w name ha]
      rw [if_neg (fun hk => hn.1 hk.symm)]

/-- A name that has a context keeps having one, however the loop ends. -/
theorem reconcileContexts_keeps (name : String) : ∀ (entries : List (String × Config))
    (ctxs : ContextMap), (mapIndex ctxs name).isSome = true →
    (mapIndex (reconcileContexts ctxs entries).1 name).isSome = true
  | [], _, h => h
  | (k, v) :: rest, ctxs, hs => by
    rcases reconcileContexts_cons ctxs k v rest with ⟨e, h, _⟩ | ⟨h, _⟩ | ⟨w, next, ha, h, _⟩
    · rw [h]; exact hs
    · rw [h]; exact hs
    · rw [h]
      apply reconcileContexts_keeps name rest next
      rw [mapIndex_mapAssign ctxs next k w name ha]
      by_cases hk : k = name
      · rw [if_pos hk]; rfl
      · rw [if_neg hk]; exact hs

/-- When the loop runs to its end over distinct keys, every incoming entry was
merged into the context of its name, or stored as it is where there was none. -/
theorem reconcileContexts_done : ∀ (entries : List (String × Config)) (ctxs : ContextMap),
    (entries.map Prod.fst).Nodup → (reconcileContexts ctxs entries).2 = .done →
    ∀ name v, (name, v) ∈ entries →
      (mapIndex ctxs name = none ∧
        mapIndex (reconcileContexts ctxs entries).1 name = some v) ∨
      (∃ c m, mapIndex ctxs name = some c ∧ MergeWithOverwrite (some c) v = .ok m ∧
        mapIndex (reconcileContexts ctxs entries).1 name = some m)
  | [], _, _, _, name, v, hm => by simp at hm
  | (k, x) :: rest, ctxs, hnd, hdone, name, v, hm => by
    simp only [List.map_cons, List.nodup_cons] at hnd
    rcases reconcileContexts_cons ctxs k x rest with ⟨e, h, _⟩ | ⟨h, _⟩ | ⟨w, next, ha, h, hw⟩
    · rw [h] at hdone; simp at hdone
    · rw [h] at hdone; simp at hdone
    · rw [h] at hdone ⊢
      rcases List.mem_cons.1 hm with heq | hrest
      · cases heq
        have hfr := reconcileContexts_frame k rest next hnd.1
        rw [mapIndex_mapAssign ctxs next k w k ha, if_pos rfl] at hfr
        rcases hw with ⟨hnone, rfl⟩ | ⟨c, hc, hmerge⟩
        · exact Or.inl ⟨hnone, hfr⟩
        · exact Or.inr ⟨c, w, hc, hmerge, hfr⟩
      · have hne : ¬ k = name := by
          intro hk
          subst hk
          exact hnd.1 (List.mem_map.2 ⟨(k, v), hrest, rfl⟩)
        have ih := reconcileContexts_done rest next hnd.2 hdone name v hrest
        rw [mapIndex_mapAssign ctxs next k w name ha, if_neg hne] at ih
        exact ih

/-! ## The handlers, step by step -/

theorem persistUpdate_inst {σ : Type} (a : API σ) (s : σ) (i : Instance) :
    (persistUpdate a s i).inst = i := by
  unfold persistUpdate
  rcases h : a.db.UpdateInstance s i with ⟨_ | e, s1⟩ <;> rfl

theorem persistUpdate_db {σ : Type} (a : API σ) (s : σ) (i : Instance) :
    (persistUpdate a s i).db = (a.db.UpdateInstance s i).2 := by
  unfold persistUpdate
  rcases h : a.db.UpdateInstance s i with ⟨_ | e, s1⟩ <;> rfl

theorem persistUpdate_outcome {σ : Type} (a : API σ) (s : σ) (i : Instance) :
    (persistUpdate a s i).outcome = (match (a.db.UpdateInstance s i).1 with
      | none => .sent StatusOK (.inst i)
      | some e => .failed (.internalServerError "Database error updating instance" (.db e))) := by
  unfold persistUpdate
  rcases h : a.db.UpdateInstance s i with ⟨_ | e, s1⟩ <;> rfl

theorem persistUpdate_recording {σ : Type} (a : API σ) (s : σ) (log : List Call) (i : Instance) :
    (persistUpdate a.recording (s, log) i).outcome = (persistUpdate a s i).outcome ∧
    (persistUpdate a.recording (s, log) i).inst = (persistUpdate a s i).inst ∧
    (persistUpdate a.recording (s, log) i).db = ((persistUpdate a s i).db, log ++ [.update i]) := by
  unfold persistUpdate
  simp only [API.recording, recording]
  rcases h : a.db.UpdateInstance s i with ⟨_ | e, s1⟩ <;> exact ⟨rfl, rfl, rfl⟩

/-- What `updateContexts` does: it stops early and leaves the store alone, or it
runs the loop to its end and calls the persistence layer once. -/
theorem updateContexts_cases {σ : Type} (a : API σ) (s : σ) (log : List Call) (i : Instance)
    (params : InstanceRequestParams) :
    (updateContexts a.recording (s, log) i params).outcome = (updateContexts a s i params).outcome ∧
    (updateContexts a.recording (s, log) i params).inst = (updateContexts a s i params).inst ∧
    (updateContexts a.recording (s, log) i params).db.1 = (updateContexts a s i params).db ∧
    (updateContexts a s i params).inst.ID = i.ID ∧
    (updateContexts a s i params).inst.UUID = i.UUID ∧
    (updateContexts a s i params).inst.BaseConfig = i.BaseConfig ∧
    ((updateContexts a s i params).inst.Contexts = i.Contexts ∨
      ∃ entries, params.Contexts = some entries ∧
        (updateContexts a s i params).inst.Contexts = (reconcileContexts i.Contexts entries).1) ∧
    (((updateContexts a s i params).outcome.stoppedEarly = true ∧
        (updateContexts a s i params).db = s ∧
        (updateContexts a.recording (s, log) i params).db.2 = log) ∨
      ((params.Contexts = none ∨ ∃ entries, params.Contexts = some entries ∧
          reconcileContexts i.Contexts entries =
            ((updateContexts a s i params).inst.Contexts, .done)) ∧
        (updateContexts a s i params).outcome =
          (persistUpdate a s (updateContexts a s i params).inst).outcome ∧
        (updateContexts a s i params).db =
          (a.db.UpdateInstance s (updateContexts a s i params).inst).2 ∧
        (updateContexts a.recording (s, log) i params).db.2 =
          log ++ [.update (updateContexts a s i params).inst])) := by
  unfold updateContexts
  cases hc : params.Contexts with
  | none =>
    dsimp only
    obtain ⟨h1, h2, h3⟩ := persistUpdate_recording a s log i
    rw [h1, h2, h3, persistUpdate_inst, persistUpdate_db]
    exact ⟨rfl, rfl, rfl, rfl, rfl, rfl, Or.inl rfl, Or.inr ⟨Or.inl rfl, rfl, rfl, rfl⟩⟩
  | some entries =>
    dsimp only
    rcases hr : reconcileContexts i.Contexts entries with ⟨ctxs, _ | e | _⟩
    · dsimp only
      obtain ⟨h1, h2, h3⟩ := persistUpdate_recording a s log { i with Contexts := ctxs }
      rw [h1, h2, h3, persistUpdate_inst, persistUpdate_db]
      exact ⟨rfl, rfl, rfl, rfl, rfl, rfl, Or.inr ⟨entries, rfl, by rw [hr]⟩,
        Or.inr ⟨Or.inr ⟨entries, rfl, hr⟩, rfl, rfl, rfl⟩⟩
    · exact ⟨rfl, rfl, rfl, rfl, rfl, rfl, Or.inr ⟨entries, rfl, by rw [hr]⟩,
        Or.inl ⟨rfl, rfl, rfl⟩⟩
    · exact ⟨rfl, rfl, rfl, rfl, rfl, rfl, Or.inr ⟨entries, rfl, by rw [hr]⟩,
        Or.inl ⟨rfl, rfl, rfl⟩⟩

/-- What `UpdateInstance` does: it stops early and leaves the store alone, or it
merges everything and calls the persistence layer once with the merged record. -/
theorem UpdateInstance_cases {σ : Type} (a : API σ) (s : σ) (log : List Call) (i : Instance)
    (body : Except String InstanceRequestParams) :
    (UpdateInstance a.recording (s, log) i body).outcome = (UpdateInstance a s i body).outcome ∧
    (UpdateInstance a.recording (s, log) i body).inst = (UpdateInstance a s i body).inst ∧
    (UpdateInstance a.recording (s, log) i body).db.1 = (UpdateInstance a s i body).db ∧
    (UpdateInstance a s i body).inst.ID = i.ID ∧
    (UpdateInstance a s i body).inst.UUID = i.UUID ∧
    ((UpdateInstance a s i body).inst.Contexts = i.Contexts ∨
      ∃ params entries, body = .ok params ∧ params.Contexts = some entries ∧
        (UpdateInstance a s i body).inst.Contexts = (reconcileContexts i.Contexts entries).1) ∧
    (((UpdateInstance a s i body).outcome.stoppedEarly = true ∧
        (UpdateInstance a s i body).db = s ∧
        (UpdateInstance a.recording (s, log) i body).db.2 = log) ∨
      (∃ params, body = .ok params ∧
        (params.BaseConfig = none ∨ ∃ src m, params.BaseConfig = some src ∧
          MergeWithOverwrite i.BaseConfig src = .ok m ∧
          (UpdateInstance a s i body).inst.BaseConfig = some m) ∧
        (params.Contexts = none ∨ ∃ entries, params.Contexts = some entries ∧
          reconcileContexts i.Contexts entries =
            ((UpdateInstance a s i body).inst.Contexts, .done)) ∧
        (UpdateInstance a s i body).outcome =
          (persistUpdate a s (UpdateInstance a s i body).inst).outcome ∧
        (UpdateInstance a s i body).db =
          (a.db.UpdateInstance s (UpdateInstance a s i body).inst).2 ∧
        (UpdateInstance a.recording (s, log) i body).db.2 =
          log ++ [.update (UpdateInstance a s i body).inst])) := by
  unfold UpdateInstance
  cases body with
  | error err => exact ⟨rfl, rfl, rfl, rfl, rfl, Or.inl rfl, Or.inl ⟨rfl, rfl, rfl⟩⟩
  | ok params =>
    dsimp only
    cases hb : params.BaseConfig with
    | none =>
      dsimp only
      obtain ⟨h1, h2, h3, h4, h5, _, h7, h8⟩ := updateContexts_cases a s log i params
      refine ⟨h1, h2, h3, h4, h5, ?_, ?_⟩
      · rcases h7 with h | ⟨entries, he, h⟩
        · exact Or.inl h
        · exact Or.inr ⟨params, entries, rfl, he, h⟩
      · rcases h8 with h | ⟨hc, ho, hd, hl⟩
        · exact Or.inl h
        · exact Or.inr ⟨params, rfl, Or.inl hb, hc, ho, hd, hl⟩
    | some src =>
      dsimp only
      cases hm : MergeWithOverwrite i.BaseConfig src with
      | error e => exact ⟨rfl, rfl, rfl, rfl, rfl, Or.inl rfl, Or.inl ⟨rfl, rfl, rfl⟩⟩
      | ok m =>
        dsimp only
        obtain ⟨h1, h2, h3, h4, h5, h6, h7, h8⟩ :=
          updateContexts_cases a s log { i with BaseConfig := some m } params
        refine ⟨h1, h2, h3, h4, h5, ?_, ?_⟩
        · rcases h7 with h | ⟨entries, he, h⟩
          · exact Or.inl h
          · exact Or.inr ⟨params, entries, rfl, he, h⟩
        · rcases h8 with h | ⟨hc, ho, hd, hl⟩
          · exact Or.inl h
          · exact Or.inr ⟨params, rfl, Or.inr ⟨src, m, hb, hm, h6⟩, hc, ho, hd, hl⟩

/-- The base configuration after `UpdateInstance` once the base merge succeeded. -/
theorem UpdateInstance_baseConfig {σ : Type} (a : API σ) (s : σ) (i : Instance)
    (params : InstanceRequestParams) (src m : Config) (hs : params.BaseConfig = some src)
    (hm : MergeWithOverwrite i.BaseConfig src = .ok m) :
    (UpdateInstance a s i (.ok params)).inst.BaseConfig = some m := by
  unfold UpdateInstance
  simp only [hs, hm]
  exact (updateContexts_cases a s [] { i with BaseConfig := some m } params).2.2.2.2.2.1

/-- A successful `UpdateInstance` answers with the record it leaves in memory,
after handing that record to the persistence layer in its one call. -/
theorem UpdateInstance_succeeded {σ : Type} (a : API σ) (s : σ) (i : Instance)
    (body : Except String InstanceRequestParams)
    (h : (UpdateInstance a s i body).outcome.succeeded = true) :
    (UpdateInstance a s i body).outcome
        = .sent StatusOK (.inst (UpdateInstance a s i body).inst) ∧
      (UpdateInstance a.recording (s, []) i body).db.2
        = [.update (UpdateInstance a s i body).inst] := by
  obtain ⟨_, _, _, _, _, _, hc⟩ := UpdateInstance_cases a s [] i body
  rcases hc with ⟨hstop, _, _⟩ | ⟨q, _, _, _, hout, _, hlog⟩
  · cases ho : (UpdateInstance a s i body).outcome with
    | sent st b => rw [ho] at hstop; simp [Outcome.stoppedEarly] at hstop
    | failed e => rw [ho] at h; simp [Outcome.succeeded] at h
    | fault m => rw [ho] at h; simp [Outcome.succeeded] at h
  · refine ⟨?_, by rw [hlog]; rfl⟩
    rw [persistUpdate_outcome] at hout
    cases hdb : (a.db.UpdateInstance s (UpdateInstance a s i body).inst).1 with
    | none => rw [hdb] at hout; exact hout
    | some e =>
      rw [hdb] at hout
      rw [hout] at h
      simp [Outcome.succeeded] at h

/-! ## The claims -/

/-- C1. For a stored instance with base configuration `dst` and an update request
that supplies a base configuration `src` of the same schema, `UpdateInstance`
leaves the instance with the merge of `src` into `dst`, a value of that schema:
every leaf that is not zero in `src` has the value of `src`, also where `dst`
lacks the field; every path that `src` leaves unset keeps what `dst` holds;
every zero leaf of `src` keeps the value of `dst`, and where `dst` holds none
the field is zero; and where `src` sets no field that `dst` lacks, every zero
or unset path keeps what `dst` holds, nested objects included. When the
request succeeds this record is the response body. -/
theorem C1_update_merges_base_config {σ : Type} (a : API σ) (s : σ) (i : Instance)
    (params : InstanceRequestParams) (schema dst src : Config)
    (hd : i.BaseConfig = some dst) (hs : params.BaseConfig = some src)
    (hfd : fits dst schema = true) (hfs : fits src schema = true) :
    ∃ m, (UpdateInstance a s i (.ok params)).inst.BaseConfig = some m ∧
      MergeWithOverwrite i.BaseConfig src = .ok m ∧
      fits m schema = true ∧
      (∀ p v, src.get p = some v → v.isLeaf = true → v.isZero = false → m.get p = some v) ∧
      (∀ p, src.get p = none → m.get p = dst.get p) ∧
      (∀ p v, src.get p = some v → v.isLeaf = true → v.isZero = true →
        (∀ x, dst.get p = some x → m.get p = some x) ∧
          (dst.get p = none → m.get p = some v)) ∧
      (conforms src dst = true →
        ∀ p, (src.get p = none ∨ ∃ v, src.get p = some v ∧ v.isZero = true) →
          m.get p = dst.get p) ∧
      ((UpdateInstance a s i (.ok params)).outcome.succeeded = true →
        (UpdateInstance a s i (.ok params)).outcome
          = .sent StatusOK (.inst (UpdateInstance a s i (.ok params)).inst)) := by
  obtain ⟨m, hm, hfm⟩ := merge_fits dst src schema hfd hfs
  have hmw : MergeWithOverwrite i.BaseConfig src = .ok m := by
    rw [hd]; exact hm
  refine ⟨m, UpdateInstance_baseConfig a s i params src m hs hmw, hmw, hfm,
    fun p v hg hl hz => merge_get_touched p dst src m v hm hg hl hz,
    fun p hg => (merge_get_cases p dst src m hm).1 hg, ?_,
    fun hc p hg => merge_get_untouched p dst src m hc hm hg,
    fun hok => (UpdateInstance_succeeded a s i (.ok params) hok).1⟩
  intro p v hg hl hz
  have h2 := (merge_get_cases p dst src m hm).2.1 v hg hl hz
  constructor
  · intro x hx
    rw [h2, hx]; rfl
  · intro hn
    rw [h2, hn]; rfl

/-- Witness of C1: the update `{mailer: {from: "b@x.com"}}` of a stored
configuration that sets `siteURL` only, which adds `mailer.from`; and the
scenario of the specification, `siteURL` preserved and `mailer.from`
overwritten. -/
theorem C1_update_merges_base_config_witness :
    (UpdateInstance memAPI [sampleInstance] sampleInstance (.ok samplePatchParams)).inst.BaseConfig
        = some sampleMerged ∧
      (UpdateInstance memAPI [sampleSparseInstance] sampleSparseInstance
        (.ok samplePatchParams)).inst.BaseConfig
        = some (.obj (.ofList [("siteURL", .str "https://s.example"),
            ("mailer", .obj (.ofList [("from", .str "b@x.com")]))])) ∧
      fits sampleStaging sampleBase = true ∧ fits samplePatch sampleBase = true ∧
      ∃ m, (UpdateInstance memAPI [sampleSparseInstance] sampleSparseInstance
          (.ok samplePatchParams)).inst.BaseConfig = some m ∧
        MergeWithOverwrite sampleSparseInstance.BaseConfig samplePatch = .ok m ∧
        fits m sampleBase = true ∧
        (∀ p v, samplePatch.get p = some v → v.isLeaf = true → v.isZero = false →
          m.get p = some v) ∧
        (∀ p, samplePatch.get p = none → m.get p = sampleStaging.get p) ∧
        (∀ p v, samplePatch.get p = some v → v.isLeaf = true → v.isZero = true →
          (∀ x, sampleStaging.get p = some x → m.get p = some x) ∧
            (sampleStaging.get p = none → m.get p = some v)) ∧
        (conforms samplePatch sampleStaging = true →
          ∀ p, (samplePatch.get p = none ∨ ∃ v, samplePatch.get p = some v ∧ v.isZero = true) →
            m.get p = sampleStaging.get p) ∧
        ((UpdateInstance memAPI [sampleSparseInstance] sampleSparseInstance
            (.ok samplePatchParams)).outcome.succeeded = true →
          (UpdateInstance memAPI [sampleSparseInstance] sampleSparseInstance
            (.ok samplePatchParams)).outcome
            = .sent StatusOK (.inst (UpdateInstance memAPI [sampleSparseInstance]
                sampleSparseInstance (.ok samplePatchParams)).inst)) :=
  ⟨by decide, by decide, by decide, by decide,
    C1_update_merges_base_config memAPI [sampleSparseInstance] sampleSparseInstance
      samplePatchParams sampleBase sampleStaging samplePatch rfl rfl (by decide) (by decide)⟩

/-- C8. Merging an update all of whose fields are zero or unset into a
configuration `C` of its schema gives `C`, so an update request whose base
configuration is present but empty leaves the base configuration of the
instance as it was. -/
theorem C8_empty_update_is_identity (C e : Config) (hc : conforms e C = true)
    (hz : e.isZero = true) {σ : Type} (a : API σ) (s : σ) (i : Instance)
    (params : InstanceRequestParams) (hd : i.BaseConfig = some C)
    (hs : params.BaseConfig = some e) :
    merge C e = .ok C ∧
      (UpdateInstance a s i (.ok params)).inst.BaseConfig = i.BaseConfig := by
  refine ⟨merge_zero C e hc hz, ?_⟩
  rw [UpdateInstance_baseConfig a s i params e C hs (by rw [hd]; exact merge_zero C e hc hz), hd]

/-- Witness of C8: the empty update merged into the sample configuration. -/
theorem C8_empty_update_is_identity_witness :
    conforms emptyPatch sampleBase = true ∧ emptyPatch.isZero = true ∧
      merge sampleBase emptyPatch = .ok sampleBase ∧
      (UpdateInstance memAPI [sampleInstance] sampleInstance (.ok sampleEmptyParams)).inst.BaseConfig
        = sampleInstance.BaseConfig :=
  ⟨by decide, by decide,
    C8_empty_update_is_identity sampleBase emptyPatch (by decide) (by decide)
      memAPI [sampleInstance] sampleInstance sampleEmptyParams rfl rfl⟩

/-- C9. Two updates of the schema of `dst` that touch disjoint sets of leaves
commute: merging `src1` then `src2` and merging `src2` then `src1` both
succeed and give the same configuration, that is the same nested mapping, and
the very same field lists where neither update sets a field that `dst` lacks;
and so do the two as successive update requests. -/
theorem C9_disjoint_updates_commute (schema dst src1 src2 : Config)
    (hfd : fits dst schema = true) (hf1 : fits src1 schema = true)
    (hf2 : fits src2 schema = true)
    (hdis : ∀ p, ¬ (src1.touches p ∧ src2.touches p))
    {σ : Type} (a : API σ) (s t : σ) (i : Instance) (p1 p2 : InstanceRequestParams)
    (hd : i.BaseConfig = some dst) (hp1 : p1.BaseConfig = some src1)
    (hp2 : p2.BaseConfig = some src2) :
    ∃ m12 m21, ((merge dst src1).bind fun x => merge x src2) = .ok m12 ∧
      ((merge dst src2).bind fun x => merge x src1) = .ok m21 ∧
      m12.sameMapping m21 ∧
      (conforms src1 dst = true → conforms src2 dst = true → m12 = m21) ∧
      (UpdateInstance a t (UpdateInstance a s i (.ok p1)).inst (.ok p2)).inst.BaseConfig
        = some m12 ∧
      (UpdateInstance a t (UpdateInstance a s i (.ok p2)).inst (.ok p1)).inst.BaseConfig
        = some m21 := by
  obtain ⟨m1, e1, hm1⟩ := merge_fits dst src1 schema hfd hf1
  obtain ⟨m12, e12, _⟩ := merge_fits m1 src2 schema hm1 hf2
  obtain ⟨m2, e2, hm2⟩ := merge_fits dst src2 schema hfd hf2
  obtain ⟨m21, e21, _⟩ := merge_fits m2 src1 schema hm2 hf1
  have f1 := UpdateInstance_baseConfig a s i p1 src1 m1 hp1 (by rw [hd]; exact e1)
  have f2 := UpdateInstance_baseConfig a s i p2 src2 m2 hp2 (by rw [hd]; exact e2)
  refine ⟨m12, m21, by rw [e1]; exact e12, by rw [e2]; exact e21,
    merge_comm_mapping dst src1 src2 m1 m2 m12 m21 e1 e12 e2 e21 hdis, ?_,
    UpdateInstance_baseConfig a t _ p2 src2 m12 hp2 (by rw [f1]; exact e12),
    UpdateInstance_baseConfig a t _ p1 src1 m21 hp1 (by rw [f2]; exact e21)⟩
  intro hc1 hc2
  obtain ⟨n1, n2, n, g1, g12, g2, g21⟩ := merge_comm dst src1 src2 hc1 hc2 hdis
  rw [e1] at g1
  cases g1
  rw [e2] at g2
  cases g2
  rw [e12] at g12
  rw [e21] at g21
  cases g12
  cases g21
  rfl

/-- Witness of C9: the updates `{mailer: {from: "b@x.com"}}` and
`{siteURL: "https://b.example"}` of a stored configuration that sets no field,
as two update requests; each adds its field, so the two orders list the
fields in different orders and give the same mapping. -/
theorem C9_disjoint_updates_commute_witness :
    fits emptyPatch sampleBase = true ∧ fits samplePatch sampleBase = true ∧
      fits sampleOtherPatch sampleBase = true ∧
      (∀ p, ¬ (samplePatch.touches p ∧ sampleOtherPatch.touches p)) ∧
      ((merge emptyPatch samplePatch).bind fun x => merge x sampleOtherPatch)
        = .ok (.obj (.ofList [("mailer", .obj (.ofList [("from", .str "b@x.com")])),
            ("siteURL", .str "https://b.example")])) ∧
      ((merge emptyPatch sampleOtherPatch).bind fun x => merge x samplePatch)
        = .ok (.obj (.ofList [("siteURL", .str "https://b.example"),
            ("mailer", .obj (.ofList [("from", .str "b@x.com")]))])) ∧
      ∃ m12 m21,
        ((merge emptyPatch samplePatch).bind fun x => merge x sampleOtherPatch) = .ok m12 ∧
        ((merge emptyPatch sampleOtherPatch).bind fun x => merge x samplePatch) = .ok m21 ∧
        m12.sameMapping m21 ∧
        (conforms samplePatch emptyPatch = true → conforms sampleOtherPatch emptyPatch = true →
          m12 = m21) ∧
        (UpdateInstance memAPI [sampleBlankInstance]
          (UpdateInstance memAPI [sampleBlankInstance] sampleBlankInstance
            (.ok samplePatchParams)).inst
          (.ok sampleOtherParams)).inst.BaseConfig = some m12 ∧
        (UpdateInstance memAPI [sampleBlankInstance]
          (UpdateInstance memAPI [sampleBlankInstance] sampleBlankInstance
            (.ok sampleOtherParams)).inst
          (.ok samplePatchParams)).inst.BaseConfig = some m21 :=
  have hdis : ∀ p, ¬ (samplePatch.touches p ∧ sampleOtherPatch.touches p) := by
    rintro p ⟨⟨v, hv, hl, _⟩, ⟨w, hw, _, _⟩⟩
    cases p with
    | nil =>
      rw [Config.get_nil] at hv
      cases hv
      simp [samplePatch, Config.isLeaf] at hl
    | cons n rest =>
      by_cases hn : n = "mailer"
      · subst hn
        simp [sampleOtherPatch, Fields.ofList, Config.get_obj_cons, Fields.lookup] at hw
      · have hn2 : ¬ "mailer" = n := fun h => hn h.symm
        simp [samplePatch, Fields.ofList, Config.get_obj_cons, Fields.lookup, hn2] at hv
  ⟨by decide, by decide, by decide, hdis, by decide, by decide,
    C9_disjoint_updates_commute sampleBase emptyPatch samplePatch sampleOtherPatch
      (by decide) (by decide) (by decide) hdis memAPI [sampleBlankInstance]
      [sampleBlankInstance] sampleBlankInstance samplePatchParams sampleOtherParams rfl rfl rfl⟩

/-- The sample updates applied in either order give
`{siteURL: "https://b.example", mailer: {from: "b@x.com"}}`. -/
theorem sample_updates_commute :
    ((merge sampleBase samplePatch).bind fun x => merge x sampleOtherPatch) =
        ((merge sampleBase sampleOtherPatch).bind fun x => merge x samplePatch) ∧
      ((merge sampleBase samplePatch).bind fun x => merge x sampleOtherPatch) =
        .ok (.obj (.ofList [("siteURL", .str "https://b.example"),
          ("mailer", .obj (.ofList [("from", .str "b@x.com")]))])) := by
  constructor <;> rfl

/-- C2, as stated, fails when the request is aborted: an instance created without
a `config` member is stored with a nil base configuration; an update request
that carries a base update and the context "staging" then stops at the base
merge, which has no destination, and the context "staging" is never stored. -/
theorem C2_aborted_update_stores_no_context :
    (CreateInstance memAPI [] (.ok sampleNoConfigCreateParams) "id-1").db
        = [sampleNoConfigInstance] ∧
      sampleNoConfigInstance.BaseConfig = none ∧
      sampleConfigAndContextParams.Contexts = some [("staging", sampleStaging)] ∧
      mapIndex sampleNoConfigInstance.Contexts "staging" = none ∧
      (UpdateInstance memAPI [sampleNoConfigInstance] sampleNoConfigInstance
        (.ok sampleConfigAndContextParams)).outcome
        = .failed (.internalServerError "Error merging instance configurations"
            (.merge .nilDestination)) ∧
      mapIndex (UpdateInstance memAPI [sampleNoConfigInstance] sampleNoConfigInstance
        (.ok sampleConfigAndContextParams)).inst.Contexts "staging" ≠ some sampleStaging := by
  decide

/-- C2, amended. When `UpdateInstance` answers an update request that carries a
contexts mapping with success, then for each incoming `(name, v)`: where the
instance had a context `c` of that name the context is now the merge of `v`
into `c`, and where it had none the context is now `v` itself. The record with
these contexts is the response body. The keys of a Go map are distinct. -/
theorem C2_contexts_reconciled_on_success {σ : Type} (a : API σ) (s : σ) (i : Instance)
    (params : InstanceRequestParams) (entries : List (String × Config))
    (hc : params.Contexts = some entries) (hk : (entries.map Prod.fst).Nodup)
    (hok : (UpdateInstance a s i (.ok params)).outcome.succeeded = true) :
    (UpdateInstance a s i (.ok params)).outcome
        = .sent StatusOK (.inst (UpdateInstance a s i (.ok params)).inst) ∧
      ∀ name v, (name, v) ∈ entries →
        (mapIndex i.Contexts name = none ∧
          mapIndex (UpdateInstance a s i (.ok params)).inst.Contexts name = some v) ∨
        (∃ c m, mapIndex i.Contexts name = some c ∧ MergeWithOverwrite (some c) v = .ok m ∧
          mapIndex (UpdateInstance a s i (.ok params)).inst.Contexts name = some m) := by
  refine ⟨(UpdateInstance_succeeded a s i (.ok params) hok).1, ?_⟩
  obtain ⟨_, _, _, _, _, _, h⟩ := UpdateInstance_cases a s [] i (.ok params)
  rcases h with ⟨hstop, _, _⟩ | ⟨q, hq, _, hctx, _, _, _⟩
  · rw [(UpdateInstance_succeeded a s i (.ok params) hok).1] at hstop
    simp [Outcome.stoppedEarly] at hstop
  · cases hq
    rcases hctx with hnone | ⟨es, hes, hrec⟩
    · rw [hc] at hnone; cases hnone
    · rw [hc] at hes
      cases hes
      intro name v hmem
      have hfst : (UpdateInstance a s i (.ok params)).inst.Contexts
          = (reconcileContexts i.Contexts entries).1 := by rw [hrec]
      have hsnd : (reconcileContexts i.Contexts entries).2 = .done := by rw [hrec]
      rw [hfst]
      exact reconcileContexts_done entries i.Contexts hk hsnd name v hmem

/-- Witness of C2: "staging" is added as it is and "production" is merged. -/
theorem C2_contexts_reconciled_on_success_witness :
    ([("staging", sampleStaging), ("production", sampleStagingPatch)].map Prod.fst).Nodup ∧
      (UpdateInstance memAPI [sampleInstance] sampleInstance
        (.ok sampleTwoContextParams)).outcome.succeeded = true ∧
      mapIndex (UpdateInstance memAPI [sampleInstance] sampleInstance
        (.ok sampleTwoContextParams)).inst.Contexts "staging" = some sampleStaging ∧
      mapIndex (UpdateInstance memAPI [sampleInstance] sampleInstance
        (.ok sampleTwoContextParams)).inst.Contexts "production" =
          some (.obj (.ofList [("siteURL", .str "https://s.example"),
            ("mailer", .obj (.ofList [("from", .str "c@x.com")]))])) ∧
      ((UpdateInstance memAPI [sampleInstance] sampleInstance (.ok sampleTwoContextParams)).outcome
          = .sent StatusOK (.inst (UpdateInstance memAPI [sampleInstance] sampleInstance
              (.ok sampleTwoContextParams)).inst) ∧
        ∀ name v, (name, v) ∈ [("staging", sampleStaging), ("production", sampleStagingPatch)] →
          (mapIndex sampleInstance.Contexts name = none ∧
            mapIndex (UpdateInstance memAPI [sampleInstance] sampleInstance
              (.ok sampleTwoContextParams)).inst.Contexts name = some v) ∨
          (∃ c m, mapIndex sampleInstance.Contexts name = some c ∧
            MergeWithOverwrite (some c) v = .ok m ∧
            mapIndex (UpdateInstance memAPI [sampleInstance] sampleInstance
              (.ok sampleTwoContextParams)).inst.Contexts name = some m)) :=
  ⟨by decide, by decide, by decide, by decide,
    C2_contexts_reconciled_on_success memAPI [sampleInstance] sampleInstance
      sampleTwoContextParams [("staging", sampleStaging), ("production", sampleStagingPatch)]
      rfl (by decide) (by decide)⟩

/-- C6. For an update request that carries a contexts mapping, every context
name of the instance that is not an incoming key keeps its value, and every
name that had a context still has one, however the request ends. -/
theorem C6_other_contexts_untouched {σ : Type} (a : API σ) (s : σ) (i : Instance)
    (params : InstanceRequestParams) (entries : List (String × Config))
    (hc : params.Contexts = some entries) (name : String) :
    (name ∉ entries.map Prod.fst →
        mapIndex (UpdateInstance a s i (.ok params)).inst.Contexts name
          = mapIndex i.Contexts name) ∧
      ((mapIndex i.Contexts name).isSome = true →
        (mapIndex (UpdateInstance a s i (.ok params)).inst.Contexts name).isSome = true) := by
  obtain ⟨_, _, _, _, _, h, _⟩ := UpdateInstance_cases a s [] i (.ok params)
  rcases h with h | ⟨q, es, hq, hes, h⟩
  · rw [h]
    exact ⟨fun _ => rfl, fun hs => hs⟩
  · cases hq
    rw [hc] at hes
    cases hes
    rw [h]
    exact ⟨reconcileContexts_frame name entries i.Contexts,
      reconcileContexts_keeps name entries i.Contexts⟩

/-- Witness of C6: an update that carries "staging" alone keeps the context
"production" as it was. -/
theorem C6_other_contexts_untouched_witness :
    "production" ∉ [("staging", sampleStaging)].map Prod.fst ∧
      mapIndex (UpdateInstance memAPI [sampleInstance] sampleInstance
        (.ok sampleContextParams)).inst.Contexts "production"
        = mapIndex sampleInstance.Contexts "production" ∧
      (mapIndex sampleInstance.Contexts "production").isSome = true ∧
      (mapIndex (UpdateInstance memAPI [sampleInstance] sampleInstance
        (.ok sampleContextParams)).inst.Contexts "production").isSome = true :=
  ⟨by decide,
    (C6_other_contexts_untouched memAPI [sampleInstance] sampleInstance sampleContextParams
      [("staging", sampleStaging)] rfl "production").1 (by decide),
    by decide,
    (C6_other_contexts_untouched memAPI [sampleInstance] sampleInstance sampleContextParams
      [("staging", sampleStaging)] rfl "production").2 (by decide)⟩

/-- C7. Whatever the update request and however it ends, the record keeps its
id and its uuid, and so does every record handed to the persistence layer; the
uuid in the request body is not used. -/
theorem C7_update_keeps_id_and_uuid {σ : Type} (a : API σ) (s : σ) (i : Instance)
    (body : Except String InstanceRequestParams) :
    (UpdateInstance a s i body).inst.ID = i.ID ∧
      (UpdateInstance a s i body).inst.UUID = i.UUID ∧
      ∀ c ∈ (UpdateInstance a.recording (s, []) i body).db.2,
        ∃ j, c = .update j ∧ j.ID = i.ID ∧ j.UUID = i.UUID := by
  obtain ⟨_, _, _, hid, huuid, _, h⟩ := UpdateInstance_cases a s [] i body
  refine ⟨hid, huuid, ?_⟩
  intro c hmem
  rcases h with ⟨_, _, hlog⟩ | ⟨q, _, _, _, _, _, hlog⟩
  · rw [hlog] at hmem; simp at hmem
  · rw [hlog] at hmem
    simp only [List.nil_append, List.mem_singleton] at hmem
    exact ⟨_, hmem, hid, huuid⟩

/-- Witness of C7: an update request whose body names the uuid "tenant-2" on the
instance with the uuid "tenant-1". -/
theorem C7_update_keeps_id_and_uuid_witness :
    sampleTwoContextParams.UUID = "tenant-2" ∧ sampleInstance.UUID = "tenant-1" ∧
      (UpdateInstance memAPI [sampleInstance] sampleInstance
        (.ok sampleTwoContextParams)).inst.ID = "id-1" ∧
      (UpdateInstance memAPI [sampleInstance] sampleInstance
        (.ok sampleTwoContextParams)).inst.UUID = "tenant-1" :=
  ⟨rfl, rfl,
    (C7_update_keeps_id_and_uuid memAPI [sampleInstance] sampleInstance
      (.ok sampleTwoContextParams)).1,
    (C7_update_keeps_id_and_uuid memAPI [sampleInstance] sampleInstance
      (.ok sampleTwoContextParams)).2.1⟩

/-- An outcome of `persistUpdate` is never one of the early stops. -/
theorem persistUpdate_not_stoppedEarly {σ : Type} (a : API σ) (s : σ) (i : Instance) :
    (persistUpdate a s i).outcome.stoppedEarly = false := by
  rw [persistUpdate_outcome]
  cases (a.db.UpdateInstance s i).1 <;> rfl

/-- C3. A failed update request leaves the store as it was. `UpdateInstance`
calls the persistence layer at most once, with the merged record, and only
after the body was decoded, the base merge succeeded and the loop over the
contexts ran to its end; when it stops earlier the store is untouched and no
call is made; when the one call reports a storage error the store is the one
that call leaves, which is the old one for a persistence layer whose failed
update changes nothing. -/
theorem C3_failed_update_leaves_store {σ : Type} (a : API σ) (s : σ) (i : Instance)
    (body : Except String InstanceRequestParams) :
    ((UpdateInstance a.recording (s, []) i body).db.2 = [] ∨
        (UpdateInstance a.recording (s, []) i body).db.2
          = [.update (UpdateInstance a.recording (s, []) i body).inst]) ∧
      ((UpdateInstance a.recording (s, []) i body).db.2 ≠ [] →
        ∃ params, body = .ok params ∧
          (params.BaseConfig = none ∨ ∃ src m, params.BaseConfig = some src ∧
            MergeWithOverwrite i.BaseConfig src = .ok m) ∧
          (params.Contexts = none ∨ ∃ entries, params.Contexts = some entries ∧
            (reconcileContexts i.Contexts entries).2 = .done)) ∧
      ((UpdateInstance a s i body).outcome.stoppedEarly = true →
        (UpdateInstance a s i body).db = s ∧
          (UpdateInstance a.recording (s, []) i body).db.2 = []) ∧
      ((UpdateInstance a s i body).outcome.succeeded = false →
        (∀ t j e, (a.db.UpdateInstance t j).1 = some e → (a.db.UpdateInstance t j).2 = t) →
        (UpdateInstance a s i body).db = s) := by
  obtain ⟨_, hinst, _, _, _, _, h⟩ := UpdateInstance_cases a s [] i body
  rcases h with ⟨hstop, hdb, hlog⟩ | ⟨q, hq, hbase, hctx, hout, hdb, hlog⟩
  · refine ⟨Or.inl hlog, fun hne => absurd hlog hne, fun _ => ⟨hdb, hlog⟩, fun _ _ => hdb⟩
  · have hns := persistUpdate_not_stoppedEarly a s (UpdateInstance a s i body).inst
    rw [← hout] at hns
    refine ⟨Or.inr (by rw [hlog, hinst]; rfl), fun _ => ⟨q, hq, ?_, ?_⟩, ?_, ?_⟩
    · rcases hbase with hb | ⟨src, m, hb, hm, _⟩
      · exact Or.inl hb
      · exact Or.inr ⟨src, m, hb, hm⟩
    · rcases hctx with hc | ⟨es, hes, hrec⟩
      · exact Or.inl hc
      · exact Or.inr ⟨es, hes, by rw [hrec]⟩
    · intro hstop
      rw [hstop] at hns
      cases hns
    · intro hfail hcontract
      rw [persistUpdate_outcome] at hout
      cases hcall : (a.db.UpdateInstance s (UpdateInstance a s i body).inst).1 with
      | none =>
        rw [hcall] at hout
        rw [hout] at hfail
        simp [Outcome.succeeded] at hfail
      | some e => rw [hdb, hcontract _ _ e hcall]

/-- Witness of C3: an update whose base update has the wrong shape stops early,
and an update on a persistence layer that is out of order fails in the one
call; the store is the old one both times. -/
theorem C3_failed_update_leaves_store_witness :
    (UpdateInstance memAPI [sampleInstance] sampleInstance
        (.ok sampleAbortedParams)).outcome.stoppedEarly = true ∧
      (UpdateInstance memAPI [sampleInstance] sampleInstance (.ok sampleAbortedParams)).db
        = [sampleInstance] ∧
      (UpdateInstance memAPI.recording ([sampleInstance], []) sampleInstance
        (.ok sampleAbortedParams)).db.2 = [] ∧
      (UpdateInstance downAPI () sampleInstance (.ok samplePatchParams)).outcome.succeeded
        = false ∧
      (UpdateInstance downAPI () sampleInstance (.ok samplePatchParams)).db = () ∧
      (UpdateInstance downAPI.recording ((), []) sampleInstance (.ok samplePatchParams)).db.2
        = [.update { sampleInstance with BaseConfig := some sampleMerged }] :=
  ⟨by decide,
    ((C3_failed_update_leaves_store memAPI [sampleInstance] sampleInstance
      (.ok sampleAbortedParams)).2.2.1 (by decide)).1,
    ((C3_failed_update_leaves_store memAPI [sampleInstance] sampleInstance
      (.ok sampleAbortedParams)).2.2.1 (by decide)).2,
    by decide,
    (C3_failed_update_leaves_store downAPI () sampleInstance (.ok samplePatchParams)).2.2.2
      (by decide) (fun _ _ _ _ => rfl),
    by decide⟩

/-- What `CreateInstance` does when the uuid is taken. -/
theorem CreateInstance_duplicate {σ : Type} (a : API σ) (s : σ) (log : List Call)
    (params : InstanceRequestParams) (newID : String) (found : Instance)
    (h : a.db.GetInstanceByUUID s params.UUID = .ok found) :
    (CreateInstance a.recording (s, log) (.ok params) newID).outcome
        = .failed (.badRequest "An instance with that UUID already exists") ∧
      (CreateInstance a.recording (s, log) (.ok params) newID).db = (s, log) := by
  simp [CreateInstance, API.recording, recording, h]

/-- A successful `CreateInstance` made the one call that stores the record. -/
theorem CreateInstance_succeeded {σ : Type} (a : API σ) (s : σ)
    (params : InstanceRequestParams) (newID : String)
    (h : (CreateInstance a s (.ok params) newID).outcome.succeeded = true) :
    a.db.CreateInstance s (Instance.mk newID params.UUID params.BaseConfig params.Contexts)
      = (none, (CreateInstance a s (.ok params) newID).db) := by
  simp only [CreateInstance] at h ⊢
  cases hg : a.db.GetInstanceByUUID s params.UUID with
  | ok found => simp [hg, Outcome.succeeded] at h
  | error err =>
    simp only [hg] at h ⊢
    cases hn : IsNotFoundError err with
    | false => simp [hn, Outcome.succeeded] at h
    | true =>
      simp only [hn, Bool.not_true, Bool.false_eq_true, if_false] at h ⊢
      rcases hcall : a.db.CreateInstance s
        (Instance.mk newID params.UUID params.BaseConfig params.Contexts) with ⟨_ | e, s1⟩
      · rfl
      · rw [hcall] at h
        simp [Outcome.succeeded] at h

/-- C4. A create request whose uuid is the uuid of a stored instance fails with
the error "An instance with that UUID already exists", makes no call that
writes, and leaves the store as it was. In particular, after a successful
create a second create with the same uuid fails in this way, for every
persistence layer that finds by uuid what it has stored. -/
theorem C4_duplicate_uuid_rejected {σ : Type} (a : API σ) (s : σ)
    (params : InstanceRequestParams) (newID : String) :
    (∀ found, a.db.GetInstanceByUUID s params.UUID = .ok found →
        (CreateInstance a.recording (s, []) (.ok params) newID).outcome
            = .failed (.badRequest "An instance with that UUID already exists") ∧
          (CreateInstance a.recording (s, []) (.ok params) newID).db = (s, [])) ∧
      ((∀ t j t1, a.db.CreateInstance t j = (none, t1) →
          ∃ k, a.db.GetInstanceByUUID t1 j.UUID = .ok k) →
        ∀ (second : InstanceRequestParams) (secondID : String),
          second.UUID = params.UUID →
          (CreateInstance a s (.ok params) newID).outcome.succeeded = true →
          (CreateInstance a.recording ((CreateInstance a s (.ok params) newID).db, [])
              (.ok second) secondID).outcome
              = .failed (.badRequest "An instance with that UUID already exists") ∧
            (CreateInstance a.recording ((CreateInstance a s (.ok params) newID).db, [])
              (.ok second) secondID).db = ((CreateInstance a s (.ok params) newID).db, [])) := by
  refine ⟨fun found h => CreateInstance_duplicate a s [] params newID found h, ?_⟩
  intro hlaw second secondID huuid hok
  obtain ⟨k, hk⟩ := hlaw _ _ _ (CreateInstance_succeeded a s params newID hok)
  exact CreateInstance_duplicate a _ [] second secondID k (by rw [huuid]; exact hk)

/-- The in-memory persistence layer finds by uuid what it has stored. -/
theorem memConn_finds_created (t : List Instance) (j : Instance) (t1 : List Instance)
    (h : memConn.CreateInstance t j = (none, t1)) :
    ∃ k, memConn.GetInstanceByUUID t1 j.UUID = .ok k := by
  simp only [memConn, Prod.mk.injEq, true_and] at h
  subst h
  simp only [memConn]
  cases hf : List.find? (fun r => decide (r.UUID = j.UUID)) (t ++ [j]) with
  | some r => exact ⟨r, rfl⟩
  | none =>
    rw [List.find?_eq_none] at hf
    have := hf j (by simp)
    simp at this

/-- Witness of C4: two create requests with the uuid "tenant-1" in sequence on
the in-memory persistence layer. -/
theorem C4_duplicate_uuid_rejected_witness :
    (CreateInstance memAPI [] (.ok sampleCreateParams) "id-1").outcome.succeeded = true ∧
      (CreateInstance memAPI [] (.ok sampleCreateParams) "id-1").db = [sampleCreated] ∧
      (CreateInstance memAPI.recording
          ((CreateInstance memAPI [] (.ok sampleCreateParams) "id-1").db, [])
          (.ok sampleSecondCreateParams) "id-2").outcome
          = .failed (.badRequest "An instance with that UUID already exists") ∧
      (CreateInstance memAPI.recording
          ((CreateInstance memAPI [] (.ok sampleCreateParams) "id-1").db, [])
          (.ok sampleSecondCreateParams) "id-2").db
          = ((CreateInstance memAPI [] (.ok sampleCreateParams) "id-1").db, []) ∧
      (CreateInstance memAPI.recording ([sampleCreated], []) (.ok sampleSecondCreateParams)
          "id-2").outcome
          = .failed (.badRequest "An instance with that UUID already exists") ∧
      (CreateInstance memAPI.recording ([sampleCreated], []) (.ok sampleSecondCreateParams)
          "id-2").db = ([sampleCreated], []) :=
  ⟨by decide, by decide,
    ((C4_duplicate_uuid_rejected memAPI [] sampleCreateParams "id-1").2
      memConn_finds_created sampleSecondCreateParams "id-2" rfl (by decide)).1,
    ((C4_duplicate_uuid_rejected memAPI [] sampleCreateParams "id-1").2
      memConn_finds_created sampleSecondCreateParams "id-2" rfl (by decide)).2,
    ((C4_duplicate_uuid_rejected memAPI [sampleCreated] sampleSecondCreateParams "id-2").1
      sampleCreated (by decide)).1,
    ((C4_duplicate_uuid_rejected memAPI [sampleCreated] sampleSecondCreateParams "id-2").1
      sampleCreated (by decide)).2⟩

/-- C5, evaluated. `CreateInstance` answers with the stored instance, the
endpoint and the state "active"; `GetInstance` and `UpdateInstance` answer with
the instance alone, a body that carries neither computed field. -/
theorem C5_read_and_update_omit_computed_fields :
    (CreateInstance memAPI [] (.ok sampleCreateParams) "id-1").outcome
        = .sent StatusCreated (.instanceResponse
            { Instance := sampleCreated, Endpoint := memAPI.endpoint, State := "active" }) ∧
      (GetInstance memAPI [sampleCreated] sampleCreated).outcome
        = .sent StatusOK (.inst sampleCreated) ∧
      (UpdateInstance memAPI [sampleCreated] sampleCreated (.ok sampleNoChangeParams)).outcome
        = .sent StatusOK (.inst sampleCreated) ∧
      (∀ resp, (GetInstance memAPI [sampleCreated] sampleCreated).outcome
        ≠ .sent StatusOK (.instanceResponse resp)) ∧
      (∀ resp, (UpdateInstance memAPI [sampleCreated] sampleCreated
        (.ok sampleNoChangeParams)).outcome ≠ .sent StatusOK (.instanceResponse resp)) := by
  refine ⟨by decide, by decide, by decide, ?_, ?_⟩
  · intro resp h
    have h2 : (GetInstance memAPI [sampleCreated] sampleCreated).outcome
        = .sent StatusOK (.inst sampleCreated) := by decide
    rw [h2] at h
    cases h
  · intro resp h
    have h2 : (UpdateInstance memAPI [sampleCreated] sampleCreated
        (.ok sampleNoChangeParams)).outcome = .sent StatusOK (.inst sampleCreated) := by decide
    rw [h2] at h
    cases h

/-- The body of `GetInstance` is the instance alone, for every instance. -/
theorem GetInstance_body {σ : Type} (a : API σ) (s : σ) (i : Instance) :
    (GetInstance a s i).outcome = .sent StatusOK (.inst i) ∧ (GetInstance a s i).db = s :=
  ⟨rfl, rfl⟩

/-- C10, evaluated. An instance created from a request without a contexts
mapping is stored with the nil map; an update request that carries the context
"staging" then stops in the write to that map with a run-time fault, nothing is
written to the store, and "staging" is not a key of the contexts afterwards. -/
theorem C10_update_of_nil_contexts_faults :
    (CreateInstance memAPI [] (.ok sampleCreateParams) "id-1").db = [sampleCreated] ∧
      loadInstance memAPI [sampleCreated] "id-1" = .ok sampleCreated ∧
      sampleCreated.Contexts = none ∧
      (UpdateInstance memAPI [sampleCreated] sampleCreated (.ok sampleContextParams)).outcome
        = .fault "assignment to entry in nil map" ∧
      (UpdateInstance memAPI [sampleCreated] sampleCreated (.ok sampleContextParams)).db
        = [sampleCreated] ∧
      "staging" ∉ mapKeys (UpdateInstance memAPI [sampleCreated] sampleCreated
        (.ok sampleContextParams)).inst.Contexts := by
  decide

/-- The loop faults on its first entry whenever the stored map is nil. -/
theorem reconcileContexts_nil_map (k : String) (v : Config) (rest : List (String × Config)) :
    reconcileContexts none ((k, v) :: rest) = (none, .nilMapAssign) := rfl

/-- Every update request that carries a non-empty contexts mapping for an
instance whose contexts map is nil ends in the run-time fault, once the base
merge (if any) has succeeded; the store is not written. -/
theorem UpdateInstance_nil_contexts_faults {σ : Type} (a : API σ) (s : σ) (i : Instance)
    (params : InstanceRequestParams) (k : String) (v : Config) (rest : List (String × Config))
    (hi : i.Contexts = none) (hc : params.Contexts = some ((k, v) :: rest))
    (hb : params.BaseConfig = none ∨ ∃ src m, params.BaseConfig = some src ∧
      MergeWithOverwrite i.BaseConfig src = .ok m) :
    (UpdateInstance a s i (.ok params)).outcome = .fault "assignment to entry in nil map" ∧
      (UpdateInstance a s i (.ok params)).db = s ∧
      (UpdateInstance a s i (.ok params)).inst.Contexts = none := by
  rcases hb with hb | ⟨src, m, hb, hm⟩
  · simp [UpdateInstance, updateContexts, hb, hc, hi, reconcileContexts_nil_map]
  · simp [UpdateInstance, updateContexts, hb, hm, hc, hi, reconcileContexts_nil_map]

end GoTrue
